import Mathlib

/-!
# Relation-type algebra of `RA_c` (`src/types.h`)

A shallow embedding of the scalar type system, of the display functions and of `rel_ty_t`
(construction, `union_`, `intersect`, `project`, `minus`, `operator==`), followed by the
properties proved about it.

Modelling conventions.

* `std::string` is Lean's `String`; `std::string::operator<` (lexicographic, character by
  character) is `string_lt`, the lexicographic order on the character lists. The proofs use
  of it only that it is a strict total order on names.
* `std::vector<T>` is `List T`; `push_back` appends at the end.
* A C++ function that may throw returns `Except exception _`.
* The `while` loop of `union_` runs on explicit fuel; `union_` supplies
  `a.m_tys.size() + b.m_tys.size()` iterations, and every iteration consumes a column.
-/

namespace rac

/-! ## Scalar types -/

/-- The enumeration `ty_con_t`. -/
inductive ty_con_t where
  | Void | Bool | Int | Float | Double | String | Date | Time | Object
  deriving DecidableEq, Repr

/-- The integer value of an enumerator (declaration order, starting at 0). -/
def ty_con_t.toNat : ty_con_t → Nat
  | .Void => 0
  | .Bool => 1
  | .Int => 2
  | .Float => 3
  | .Double => 4
  | .String => 5
  | .Date => 6
  | .Time => 7
  | .Object => 8

/-- The struct `type_t`; its `operator==` compares `ty_con`, which is structural equality. -/
structure type_t where
  ty_con : ty_con_t
  deriving DecidableEq, Repr

/-- The order `operator<=>` induces on `type_t`: `ta.ty_con <=> tb.ty_con`. -/
def type_lt (ta tb : type_t) : Prop := ta.ty_con.toNat < tb.ty_con.toNat

instance type_lt_decidable (ta tb : type_t) : Decidable (type_lt ta tb) := by
  unfold type_lt; infer_instance

/-- Modelled from the spec: the exception class `not_implemented` is declared in `base.h`,
which is not among the sources; following the spec ("these must fail distinctly from schema
errors") it is a kind of its own. The other kind is `std::invalid_argument` of the standard
library, with its message. -/
inductive exception where
  | invalid_argument (what : String)
  | not_implemented
  deriving DecidableEq, Repr

/-- Modelled from the spec: `throw_with` lives in `base.h`, which is not among the sources.
`throw_with< E >( std::ostringstream() << ... )` throws an `E` whose message is the text
streamed so far (the test "base basics" checks exactly this). Only the instance at
`std::invalid_argument` is used. -/
def throw_with_invalid_argument {α : Type} (msg : String) : Except exception α :=
  .error (.invalid_argument msg)

/-- The function `ty_to_string`: a `switch` over the tag, then a `throw` after the switch. -/
def ty_to_string (ty : type_t) : Except exception String :=
  match ty.ty_con.toNat with
  | 0 => .ok "Void"
  | 1 => .ok "Bool"
  | 2 => .ok "Int"
  | 3 => .ok "Float"
  | 4 => .ok "Double"
  | 5 => .ok "String"
  | 6 => .ok "Date"
  | 7 => .ok "Time"
  | 8 => .ok "Object"
  | _ => .error (.invalid_argument "Unrecognised type")

/-! ## Column type lists -/

/-- The typedef `col_tys_t`: `std::vector< std::pair< std::string, type_t > >`. -/
abbrev col_tys_t := List (String × type_t)

/-- The comparison `std::string::operator<`: lexicographic on the characters. -/
def string_lt (a b : String) : Prop := a.data < b.data

instance string_lt_decidable (a b : String) : Decidable (string_lt a b) := by
  unfold string_lt; infer_instance

/-- The comparison `operator<` of `std::pair< std::string, type_t >`: lexicographic, first the
name, then the type. -/
def pair_lt (x y : String × type_t) : Prop :=
  string_lt x.1 y.1 ∨ (¬ string_lt y.1 x.1 ∧ type_lt x.2 y.2)

instance pair_lt_decidable (x y : String × type_t) : Decidable (pair_lt x y) := by
  unfold pair_lt; infer_instance

/-- The relation "not greater": `x` may stand before `y` in a range sorted by `operator<`. -/
def pair_le (x y : String × type_t) : Prop := ¬ pair_lt y x

instance pair_le_decidable (x y : String × type_t) : Decidable (pair_le x y) := by
  unfold pair_le; infer_instance

/-- The call `std::sort( m_tys.begin(), m_tys.end() )` with the default `operator<`. The order
on pairs is total and two pairs that are equivalent under it are equal, so every sorting
algorithm returns the same sequence (`std_sort_unique` below); insertion sort stands for it. -/
def std_sort (l : col_tys_t) : col_tys_t := l.insertionSort pair_le

/-! ## Relation types -/

/-- The struct `rel_ty_t`: its only data member is `m_tys`. -/
structure rel_ty_t where
  m_tys : col_tys_t
  deriving DecidableEq, Repr

/-- The loop of `construct` that looks for a repeated column name: it compares
`m_tys[ i ].first` with `m_tys[ i+1 ].first` for `i = 0 .. size-2` and throws at the first
equal pair. With fewer than two entries nothing is compared. -/
def check_repeated : col_tys_t → Except exception Unit
  | x :: y :: rest =>
    if x.1 = y.1 then
      throw_with_invalid_argument ("Column name '" ++ x.1 ++ "' repeated")
    else check_repeated (y :: rest)
  | _ => .ok ()

/-- The private member `construct`: sort `m_tys`, then check for repeated names. -/
def rel_ty_t.construct (self : rel_ty_t) : Except exception rel_ty_t :=
  let m_tys := std_sort self.m_tys
  match check_repeated m_tys with
  | .error e => .error e
  | .ok () => .ok ⟨m_tys⟩

/-- The constructors `rel_ty_t( col_tys )`: copy the list into `m_tys`, then `construct()`. -/
def rel_ty_t.ctor (col_tys : col_tys_t) : Except exception rel_ty_t :=
  rel_ty_t.construct ⟨col_tys⟩

/-- The throw of the type-mismatch branch of `union_`: the name is streamed as a
`std::string`. -/
def union_mismatch {α : Type} (a_name : String) (a_ty b_ty : type_t) : Except exception α :=
  match ty_to_string a_ty with
  | .error e => .error e
  | .ok sa =>
    match ty_to_string b_ty with
    | .error e => .error e
    | .ok sb =>
      throw_with_invalid_argument
        ("Types for column '" ++ a_name ++ "' do not match: " ++ sa ++ " and " ++ sb)

/-- The `while` loop of `union_`, on the two cursors `a_it`, `b_it` (the columns not yet
consumed) and the output `col_tys`; `fuel` bounds the number of iterations. -/
def union_loop : Nat → col_tys_t → col_tys_t → col_tys_t → Except exception col_tys_t
  | 0, _, _, col_tys => .ok col_tys
  | _ + 1, [], [], col_tys => .ok col_tys
  | fuel + 1, [], b :: bs, col_tys => union_loop fuel [] bs (col_tys ++ [b])
  | fuel + 1, a :: as, [], col_tys => union_loop fuel as [] (col_tys ++ [a])
  | fuel + 1, a :: as, b :: bs, col_tys =>
    if a.1 = b.1 then
      if a.2 = b.2 then
        union_loop fuel as bs (col_tys ++ [a])
      else
        union_mismatch a.1 a.2 b.2
    else if string_lt a.1 b.1 then
      union_loop fuel as (b :: bs) (col_tys ++ [a])
    else
      union_loop fuel (a :: as) bs (col_tys ++ [b])

/-- The static member `union_`: merge the two column lists, then build a `rel_ty_t` from the
merged list. -/
def rel_ty_t.union_ (a b : rel_ty_t) : Except exception rel_ty_t :=
  match union_loop (a.m_tys.length + b.m_tys.length) a.m_tys b.m_tys [] with
  | .error e => .error e
  | .ok col_tys => rel_ty_t.ctor col_tys

/-- The range constructor of `std::map< cstring_t, type_t >`: the entries are inserted in
order and an entry whose key is already in the map is skipped. The map is kept as an
association list (only `find` is ever used on it). -/
def std_map_range (l : col_tys_t) : List (String × type_t) :=
  l.foldl (fun m kv => if m.any (fun e => e.1 == kv.1) then m else m ++ [kv]) []

/-- The member `find` of the map: the entry with the given key, if there is one. -/
def std_map_find (m : List (String × type_t)) (k : String) : Option (String × type_t) :=
  m.find? (fun e => e.1 == k)

/-- Streaming a `const char*` (here `name.data()`): the characters before the first NUL. -/
def c_str (name : String) : String :=
  ⟨name.data.takeWhile (fun c => c != Char.ofNat 0)⟩

/-- The throw of the type-mismatch branch of `intersect`: the name is streamed through
`.data()`, a `const char*`. -/
def intersect_mismatch {α : Type} (a_name : String) (a_ty b_ty : type_t) :
    Except exception α :=
  match ty_to_string a_ty with
  | .error e => .error e
  | .ok sa =>
    match ty_to_string b_ty with
    | .error e => .error e
    | .ok sb =>
      throw_with_invalid_argument
        ("Types for column '" ++ c_str a_name ++ "' do not match: " ++ sa ++ " and " ++ sb)

/-- The `for` loop of `intersect` over the columns of `a` still to visit, with the output
`res`. -/
def intersect_loop (b_names : List (String × type_t)) :
    col_tys_t → col_tys_t → Except exception col_tys_t
  | [], res => .ok res
  | a :: as, res =>
    match std_map_find b_names a.1 with
    | some b =>
      if a.2 ≠ b.2 then intersect_mismatch a.1 a.2 b.2
      else intersect_loop b_names as (res ++ [a])
    | none => intersect_loop b_names as res

/-- The static member `intersect`. -/
def rel_ty_t.intersect (a b : rel_ty_t) : Except exception rel_ty_t :=
  match intersect_loop (std_map_range b.m_tys) a.m_tys [] with
  | .error e => .error e
  | .ok res => rel_ty_t.ctor res

/-- The free `operator==` on `rel_ty_t`: `ta.m_tys == tb.m_tys`, element-wise equality of the
two vectors. -/
def rel_ty_eq (ta tb : rel_ty_t) : Bool := decide (ta.m_tys = tb.m_tys)

/-- A relation type the program can hold: the value some constructor call returned. -/
def rel_ty_t.constructed (a : rel_ty_t) : Prop := ∃ col_tys, rel_ty_t.ctor col_tys = .ok a

/-- The static member template `project`: its body is `throw not_implemented();`. The two
iterators of the name range are of any type. -/
def rel_ty_t.project {Iterator : Type} (_a : rel_ty_t) (_begin _end : Iterator) :
    Except exception rel_ty_t :=
  .error .not_implemented

/-- The static member `minus`: its body is `throw not_implemented();`. -/
def rel_ty_t.minus (_a _b : rel_ty_t) : Except exception rel_ty_t :=
  .error .not_implemented

/-! ## Display of column type lists -/

/-- The `for` loop of `col_tys_to_stream` over the entries from `it` on; `at_begin` is the
test `it == col_tys.cbegin()` and `os` the text streamed so far. -/
def col_tys_to_stream_loop (os : String) (at_begin : Bool) :
    col_tys_t → Except exception String
  | [] => .ok os
  | x :: rest =>
    let os1 := if at_begin then os else os ++ ", "
    match ty_to_string x.2 with
    | .error e => .error e
    | .ok s => col_tys_to_stream_loop (os1 ++ x.1 ++ " : " ++ s) false rest

/-- The function `col_tys_to_stream`, the stream being the text it holds. -/
def col_tys_to_stream (os : String) (col_tys : col_tys_t) : Except exception String :=
  match col_tys_to_stream_loop (os ++ "\x7b ") true col_tys with
  | .error e => .error e
  | .ok os1 => .ok (os1 ++ " \x7d")

/-- The function `col_tys_to_string`: stream into a fresh `std::ostringstream`. -/
def col_tys_to_string (col_tys : col_tys_t) : Except exception String :=
  col_tys_to_stream "" col_tys

/-! ## Vocabulary of the properties -/

/-- The display name of a type: the text `ty_to_string` returns for it. -/
def ty_name (t : type_t) : String :=
  match ty_to_string t with
  | .ok s => s
  | .error _ => ""

/-- One entry of a column type list as it is displayed. -/
def render_entry (x : String × type_t) : String := x.1 ++ " : " ++ ty_name x.2

/-- The column names of a list, in order. -/
def names (l : col_tys_t) : List String := l.map Prod.fst

/-- The columns stand in strictly increasing order of name. -/
def strictly_name_sorted (l : col_tys_t) : Prop := l.Pairwise (fun x y => string_lt x.1 y.1)

/-- The name `n` has type `ta` in `a` and a different type `tb` in `b`. -/
def conflict_at (a b : col_tys_t) (n : String) (ta tb : type_t) : Prop :=
  (n, ta) ∈ a ∧ (n, tb) ∈ b ∧ ta ≠ tb

/-- Some name has a column in `a` and a column in `b` whose types differ. -/
def type_conflict (a b : col_tys_t) : Prop := ∃ n ta tb, conflict_at a b n ta tb

/-! ## The relation types of the test case "rel_ty_t basics" -/

/-- The value of `rel_ty_t {}`. -/
def rel_ty_empty : rel_ty_t := ⟨[]⟩

/-- The value of `rel_ty_t { { "A", { Int } } }`. -/
def rel_ty_a : rel_ty_t := ⟨[("A", ⟨.Int⟩)]⟩

/-- The value of `rel_ty_t { { "B", { Int } } }`. -/
def rel_ty_b : rel_ty_t := ⟨[("B", ⟨.Int⟩)]⟩

/-- The value of `rel_ty_t { { "A", { Double } } }`. -/
def rel_ty_a_ : rel_ty_t := ⟨[("A", ⟨.Double⟩)]⟩

/-- The value of `rel_ty_t { { "A", { Int } }, { "B", { Int } } }`, and of the same with the
two entries swapped. -/
def rel_ty_ab : rel_ty_t := ⟨[("A", ⟨.Int⟩), ("B", ⟨.Int⟩)]⟩

/-- The initializer list `{ { "A", { Int } }, { "B", { Int } } }` of `rel_ty_ab`. -/
def col_tys_ab : col_tys_t := [("A", ⟨.Int⟩), ("B", ⟨.Int⟩)]

/-- The initializer list `{ { "B", { Int } }, { "A", { Int } } }` of `rel_ty_ba`. -/
def col_tys_ba : col_tys_t := [("B", ⟨.Int⟩), ("A", ⟨.Int⟩)]

/-- The column type list of the test case "col_tys_t basics". -/
def col_tys_test : col_tys_t :=
  [("A", ⟨.Void⟩), ("B", ⟨.Bool⟩), ("C", ⟨.Int⟩), ("D", ⟨.Float⟩), ("E", ⟨.Double⟩),
   ("F", ⟨.String⟩), ("G", ⟨.Date⟩), ("H", ⟨.Time⟩), ("I", ⟨.Object⟩)]

/-- A column name with a NUL character inside: `std::string( "A\0B", 3 )`. -/
def name_with_nul : String := ⟨['A', Char.ofNat 0, 'B']⟩

/-- The value of `rel_ty_t` built from the one column `name_with_nul : Int`. -/
def rel_ty_nul : rel_ty_t := ⟨[(name_with_nul, ⟨.Int⟩)]⟩

/-- The value of `rel_ty_t` built from the one column `name_with_nul : Double`. -/
def rel_ty_nul_ : rel_ty_t := ⟨[(name_with_nul, ⟨.Double⟩)]⟩

/-! ## Order facts -/

theorem string_lt_iff (a b : String) : string_lt a b ↔ a < b := by
  unfold string_lt
  exact String.lt_iff_toList_lt.symm

theorem ty_con_t.toNat_inj (a b : ty_con_t) (h : a.toNat = b.toNat) : a = b := by
  cases a <;> cases b <;> simp [ty_con_t.toNat] at h <;> rfl

theorem pair_le_iff (x y : String × type_t) :
    pair_le x y ↔ x.1 < y.1 ∨ (x.1 = y.1 ∧ x.2.ty_con.toNat ≤ y.2.ty_con.toNat) := by
  unfold pair_le pair_lt type_lt
  simp only [string_lt_iff]
  rcases lt_trichotomy x.1 y.1 with h | h | h
  · simp [h, h.le, not_lt_of_lt h, h.ne]
  · simp [h]
  · simp [h, not_lt_of_lt h, h.ne.symm]

instance pair_le_total : IsTotal (String × type_t) pair_le where
  total x y := by
    simp only [pair_le_iff]
    rcases lt_trichotomy x.1 y.1 with h | h | h
    · exact Or.inl (Or.inl h)
    · rcases le_total x.2.ty_con.toNat y.2.ty_con.toNat with k | k
      · exact Or.inl (Or.inr ⟨h, k⟩)
      · exact Or.inr (Or.inr ⟨h.symm, k⟩)
    · exact Or.inr (Or.inl h)

instance pair_le_trans : IsTrans (String × type_t) pair_le where
  trans x y z := by
    simp only [pair_le_iff]
    rintro (h | ⟨h, k⟩) (h2 | ⟨h2, k2⟩)
    · exact Or.inl (h.trans h2)
    · exact Or.inl (h2 ▸ h)
    · exact Or.inl (h ▸ h2)
    · exact Or.inr ⟨h.trans h2, k.trans k2⟩

instance pair_le_antisymm : IsAntisymm (String × type_t) pair_le where
  antisymm x y := by
    simp only [pair_le_iff]
    rintro (h | ⟨h, k⟩) (h2 | ⟨h2, k2⟩)
    · exact absurd h (not_lt_of_lt h2)
    · exact absurd h2.symm h.ne
    · exact absurd h.symm h2.ne
    · obtain ⟨x1, ⟨x2⟩⟩ := x
      obtain ⟨y1, ⟨y2⟩⟩ := y
      simp only at h k k2
      have := ty_con_t.toNat_inj x2 y2 (le_antisymm k k2)
      subst h
      subst this
      rfl

theorem pair_le_fst {x y : String × type_t} (h : pair_le x y) : x.1 ≤ y.1 := by
  rcases (pair_le_iff x y).1 h with h | ⟨h, _⟩
  · exact h.le
  · exact h.le

theorem std_sort_sorted (l : col_tys_t) : (std_sort l).Sorted pair_le :=
  List.sorted_insertionSort pair_le l

theorem std_sort_perm (l : col_tys_t) : (std_sort l).Perm l :=
  List.perm_insertionSort pair_le l

/-- Every sorted rearrangement of `l` is `std_sort l`: the sorting algorithm does not matter. -/
theorem std_sort_unique (l l2 : col_tys_t) (hp : l2.Perm l) (hs : l2.Sorted pair_le) :
    l2 = std_sort l :=
  List.eq_of_perm_of_sorted (hp.trans (std_sort_perm l).symm) hs (std_sort_sorted l)

/-! ## Construction -/

theorem strictly_name_sorted_iff (l : col_tys_t) :
    strictly_name_sorted l ↔ l.Pairwise (fun x y => x.1 < y.1) := by
  unfold strictly_name_sorted
  simp only [string_lt_iff]

theorem strictly_name_sorted_nodup {l : col_tys_t} (h : strictly_name_sorted l) :
    (names l).Nodup := by
  rw [strictly_name_sorted_iff] at h
  unfold names
  rw [List.Nodup, List.pairwise_map]
  exact h.imp (fun hxy => hxy.ne)

theorem strictly_name_sorted_sorted {l : col_tys_t} (h : strictly_name_sorted l) :
    l.Sorted pair_le := by
  rw [strictly_name_sorted_iff] at h
  exact h.imp (fun hxy => (pair_le_iff _ _).2 (Or.inl hxy))

theorem strictly_of_sorted_nodup {l : col_tys_t} (hs : l.Sorted pair_le)
    (hn : (names l).Nodup) : strictly_name_sorted l := by
  rw [strictly_name_sorted_iff]
  unfold names at hn
  rw [List.Nodup, List.pairwise_map] at hn
  have hs2 : l.Pairwise pair_le := hs
  exact (hs2.and hn).imp (fun h => lt_of_le_of_ne (pair_le_fst h.1) h.2)

theorem check_repeated_ok_iff (l : col_tys_t) (hs : l.Pairwise (fun x y => x.1 ≤ y.1)) :
    check_repeated l = .ok () ↔ strictly_name_sorted l := by
  rw [strictly_name_sorted_iff]
  induction l with
  | nil => simp [check_repeated]
  | cons x t ih =>
    cases t with
    | nil => simp [check_repeated]
    | cons y rest =>
      have hx := (List.pairwise_cons.1 hs).1
      have ht := (List.pairwise_cons.1 hs).2
      have hy := (List.pairwise_cons.1 ht).1
      specialize ih ht
      unfold check_repeated
      by_cases hxy : x.1 = y.1
      · simp only [hxy, if_true, throw_with_invalid_argument]
        constructor
        · intro h
          cases h
        · intro h
          have := (List.pairwise_cons.1 h).1 y (List.mem_cons_self _ _)
          exact absurd hxy this.ne
      · simp only [hxy, if_false]
        rw [ih]
        constructor
        · intro h
          refine List.pairwise_cons.2 ⟨?_, h⟩
          intro z hz
          have hlt : x.1 < y.1 := lt_of_le_of_ne (hx y (List.mem_cons_self _ _)) hxy
          rcases List.mem_cons.1 hz with rfl | hz
          · exact hlt
          · exact lt_of_lt_of_le hlt (hy z hz)
        · intro h
          exact (List.pairwise_cons.1 h).2

theorem check_repeated_error (l : col_tys_t) (e : exception)
    (h : check_repeated l = .error e) : ∃ msg, e = .invalid_argument msg := by
  induction l with
  | nil => simp [check_repeated] at h
  | cons x t ih =>
    cases t with
    | nil => simp [check_repeated] at h
    | cons y rest =>
      unfold check_repeated at h
      by_cases hxy : x.1 = y.1
      · simp only [hxy, if_true, throw_with_invalid_argument] at h
        cases h
        exact ⟨_, rfl⟩
      · simp only [hxy, if_false] at h
        exact ih h

theorem sorted_names_le {l : col_tys_t} (hs : l.Sorted pair_le) :
    l.Pairwise (fun x y => x.1 ≤ y.1) :=
  List.Pairwise.imp (fun h => pair_le_fst h) hs

theorem names_nodup_sort (l : col_tys_t) : (names (std_sort l)).Nodup ↔ (names l).Nodup :=
  ((std_sort_perm l).map Prod.fst).nodup_iff

theorem check_sorted_ok_iff (l : col_tys_t) :
    check_repeated (std_sort l) = .ok () ↔ (names l).Nodup := by
  rw [check_repeated_ok_iff _ (sorted_names_le (std_sort_sorted l))]
  constructor
  · intro h
    exact (names_nodup_sort l).1 (strictly_name_sorted_nodup h)
  · intro h
    exact strictly_of_sorted_nodup (std_sort_sorted l) ((names_nodup_sort l).2 h)

theorem ctor_ok_iff (l : col_tys_t) (a : rel_ty_t) :
    rel_ty_t.ctor l = .ok a ↔ (names l).Nodup ∧ a = ⟨std_sort l⟩ := by
  unfold rel_ty_t.ctor rel_ty_t.construct
  simp only
  rw [← check_sorted_ok_iff]
  cases hc : check_repeated (std_sort l) with
  | error e => simp
  | ok u =>
    simp only [Except.ok.injEq, true_and]
    exact eq_comm

theorem ctor_error_iff (l : col_tys_t) :
    (∃ e, rel_ty_t.ctor l = .error e) ↔ ¬ (names l).Nodup := by
  rw [← check_sorted_ok_iff]
  unfold rel_ty_t.ctor rel_ty_t.construct
  simp only
  cases hc : check_repeated (std_sort l) with
  | error e => simp
  | ok u => simp

theorem ctor_error_kind (l : col_tys_t) (e : exception) (h : rel_ty_t.ctor l = .error e) :
    ∃ msg, e = .invalid_argument msg := by
  unfold rel_ty_t.ctor rel_ty_t.construct at h
  simp only at h
  cases hc : check_repeated (std_sort l) with
  | error e2 =>
    rw [hc] at h
    simp only [Except.error.injEq] at h
    subst h
    exact check_repeated_error _ _ hc
  | ok u =>
    rw [hc] at h
    cases h

theorem std_sort_of_sorted {l : col_tys_t} (h : l.Sorted pair_le) : std_sort l = l :=
  (std_sort_unique l l (List.Perm.refl l) h).symm

theorem ctor_of_strictly_sorted {l : col_tys_t} (h : strictly_name_sorted l) :
    rel_ty_t.ctor l = .ok ⟨l⟩ := by
  rw [ctor_ok_iff]
  refine ⟨strictly_name_sorted_nodup h, ?_⟩
  rw [std_sort_of_sorted (strictly_name_sorted_sorted h)]

theorem ctor_strictly_sorted {l : col_tys_t} {a : rel_ty_t} (h : rel_ty_t.ctor l = .ok a) :
    strictly_name_sorted a.m_tys := by
  obtain ⟨hn, rfl⟩ := (ctor_ok_iff l a).1 h
  exact strictly_of_sorted_nodup (std_sort_sorted l) ((names_nodup_sort l).2 hn)

theorem constructed_iff (a : rel_ty_t) : a.constructed ↔ strictly_name_sorted a.m_tys := by
  constructor
  · rintro ⟨l, hl⟩
    exact ctor_strictly_sorted hl
  · intro h
    exact ⟨a.m_tys, ctor_of_strictly_sorted h⟩

theorem rel_ty_eq_iff (a b : rel_ty_t) : rel_ty_eq a b = true ↔ a = b := by
  unfold rel_ty_eq
  simp only [decide_eq_true_eq]
  constructor
  · intro h
    cases a
    cases b
    simp only at h
    rw [h]
  · intro h
    rw [h]

theorem nodup_iff_no_repeat (l : List String) : ¬ l.Nodup ↔ ∃ n, 2 ≤ l.count n := by
  rw [List.nodup_iff_count_le_one]
  push_neg
  constructor
  · rintro ⟨n, hn⟩
    exact ⟨n, hn⟩
  · rintro ⟨n, hn⟩
    exact ⟨n, hn⟩

/-! ## The merge loop of `union_` -/

theorem not_mem_names_of_lt {z : String} {l : col_tys_t} (h : ∀ p ∈ l, z < p.1) :
    z ∉ names l := by
  unfold names
  intro hz
  obtain ⟨p, hp, hpz⟩ := List.mem_map.1 hz
  have := h p hp
  rw [hpz] at this
  exact lt_irrefl _ this

theorem mem_names_of_mem {n : String} {t : type_t} {l : col_tys_t} (h : (n, t) ∈ l) :
    n ∈ names l :=
  List.mem_map.2 ⟨(n, t), h, rfl⟩

theorem conflict_at_cons_left {x : String × type_t} {as b : col_tys_t} (h : x.1 ∉ names b)
    (n : String) (ta tb : type_t) :
    conflict_at (x :: as) b n ta tb ↔ conflict_at as b n ta tb := by
  unfold conflict_at
  constructor
  · rintro ⟨h1, h2, h3⟩
    rcases List.mem_cons.1 h1 with h1 | h1
    · subst h1
      exact absurd (mem_names_of_mem h2) h
    · exact ⟨h1, h2, h3⟩
  · rintro ⟨h1, h2, h3⟩
    exact ⟨List.mem_cons_of_mem _ h1, h2, h3⟩

theorem conflict_at_cons_right {y : String × type_t} {a bs : col_tys_t} (h : y.1 ∉ names a)
    (n : String) (ta tb : type_t) :
    conflict_at a (y :: bs) n ta tb ↔ conflict_at a bs n ta tb := by
  unfold conflict_at
  constructor
  · rintro ⟨h1, h2, h3⟩
    rcases List.mem_cons.1 h2 with h2 | h2
    · subst h2
      exact absurd (mem_names_of_mem h1) h
    · exact ⟨h1, h2, h3⟩
  · rintro ⟨h1, h2, h3⟩
    exact ⟨h1, List.mem_cons_of_mem _ h2, h3⟩

theorem conflict_at_cons_both {x : String × type_t} {as bs : col_tys_t}
    (ha : x.1 ∉ names as) (hb : x.1 ∉ names bs) (n : String) (ta tb : type_t) :
    conflict_at (x :: as) (x :: bs) n ta tb ↔ conflict_at as bs n ta tb := by
  unfold conflict_at
  constructor
  · rintro ⟨h1, h2, h3⟩
    rcases List.mem_cons.1 h1 with k1 | k1
    · rcases List.mem_cons.1 h2 with k2 | k2
      · rw [← k1] at k2
        simp only [Prod.mk.injEq, true_and] at k2
        exact absurd k2.symm h3
      · rw [← k1] at hb
        exact (hb (mem_names_of_mem k2)).elim
    · rcases List.mem_cons.1 h2 with k2 | k2
      · rw [← k2] at ha
        exact (ha (mem_names_of_mem k1)).elim
      · exact ⟨k1, k2, h3⟩
  · rintro ⟨h1, h2, h3⟩
    exact ⟨List.mem_cons_of_mem _ h1, List.mem_cons_of_mem _ h2, h3⟩

/-- The loop never stops for lack of fuel: with at least `a.size() + b.size()` iterations
allowed, the outcome does not depend on the bound (every iteration consumes a column). -/
theorem union_loop_fuel (fuel : Nat) : ∀ (fuel2 : Nat) (a b acc : col_tys_t),
    a.length + b.length ≤ fuel → a.length + b.length ≤ fuel2 →
    union_loop fuel a b acc = union_loop fuel2 a b acc := by
  induction fuel with
  | zero =>
    intro fuel2 a b acc h1 _
    have ha0 : a = [] := List.length_eq_zero.1 (by omega)
    have hb0 : b = [] := List.length_eq_zero.1 (by omega)
    subst ha0 hb0
    cases fuel2 <;> simp [union_loop]
  | succ fuel ih =>
    intro fuel2 a b acc h1 h2
    match a, b, fuel2 with
    | [], [], 0 => simp [union_loop]
    | [], [], k + 1 => simp [union_loop]
    | [], y :: bs, 0 => simp at h2
    | x :: as, b, 0 =>
      simp only [List.length_cons] at h2
      omega
    | [], y :: bs, k + 1 =>
      simp only [union_loop]
      simp only [List.length_cons, List.length_nil] at h1 h2
      exact ih k [] bs _ (by simp only [List.length_nil]; omega)
        (by simp only [List.length_nil]; omega)
    | x :: as, [], k + 1 =>
      simp only [union_loop]
      simp only [List.length_cons, List.length_nil] at h1 h2
      exact ih k as [] _ (by simp only [List.length_nil]; omega)
        (by simp only [List.length_nil]; omega)
    | x :: as, y :: bs, k + 1 =>
      simp only [union_loop]
      simp only [List.length_cons] at h1 h2
      split_ifs
      · exact ih k as bs _ (by omega) (by omega)
      · rfl
      · exact ih k as (y :: bs) _ (by simp only [List.length_cons]; omega)
          (by simp only [List.length_cons]; omega)
      · exact ih k (x :: as) bs _ (by simp only [List.length_cons]; omega)
          (by simp only [List.length_cons]; omega)

theorem union_loop_spec (fuel : Nat) : ∀ (a b acc : col_tys_t),
    a.length + b.length ≤ fuel →
    a.Pairwise (fun p q => p.1 < q.1) → b.Pairwise (fun p q => p.1 < q.1) →
    ((∀ n ta tb, ¬ conflict_at a b n ta tb) ∧
      ∃ m, union_loop fuel a b acc = .ok (acc ++ m) ∧ m.Pairwise (fun p q => p.1 < q.1) ∧
        ∀ p, p ∈ m ↔ p ∈ a ∨ p ∈ b)
    ∨ (∃ n ta tb, conflict_at a b n ta tb ∧
        (∀ n2 ta2 tb2, conflict_at a b n2 ta2 tb2 → n ≤ n2) ∧
        union_loop fuel a b acc = union_mismatch n ta tb) := by
  induction fuel with
  | zero =>
    intro a b acc hf _ _
    have ha0 : a = [] := List.length_eq_zero.1 (by omega)
    have hb0 : b = [] := List.length_eq_zero.1 (by omega)
    subst ha0 hb0
    left
    refine ⟨?_, [], by simp [union_loop], List.Pairwise.nil, by simp⟩
    intro n ta tb h
    exact absurd h.1 (List.not_mem_nil _)
  | succ fuel ih =>
    intro a b acc hf ha hb
    match a, b with
    | [], [] =>
      left
      refine ⟨?_, [], by simp [union_loop], List.Pairwise.nil, by simp⟩
      intro n ta tb h
      exact absurd h.1 (List.not_mem_nil _)
    | [], y :: bs =>
      have hy := List.pairwise_cons.1 hb
      have hlen : ([] : col_tys_t).length + bs.length ≤ fuel := by
        simp only [List.length_cons, List.length_nil] at hf ⊢
        omega
      rcases ih [] bs (acc ++ [y]) hlen ha hy.2 with ⟨_, m, hm, hs, hmem⟩ | ⟨n, ta, tb, hc, _⟩
      · left
        refine ⟨?_, y :: m, ?_, ?_, ?_⟩
        · intro n ta tb h
          exact absurd h.1 (List.not_mem_nil _)
        · simp only [union_loop]
          rw [hm]
          simp
        · refine List.pairwise_cons.2 ⟨?_, hs⟩
          intro p hp
          rcases (hmem p).1 hp with h | h
          · exact absurd h (List.not_mem_nil _)
          · exact hy.1 p h
        · intro p
          simp [hmem]
      · exact absurd hc.1 (List.not_mem_nil _)
    | x :: as, [] =>
      have hx := List.pairwise_cons.1 ha
      have hlen : as.length + ([] : col_tys_t).length ≤ fuel := by
        simp only [List.length_cons, List.length_nil] at hf ⊢
        omega
      rcases ih as [] (acc ++ [x]) hlen hx.2 hb with ⟨_, m, hm, hs, hmem⟩ | ⟨n, ta, tb, hc, _⟩
      · left
        refine ⟨?_, x :: m, ?_, ?_, ?_⟩
        · intro n ta tb h
          exact absurd h.2.1 (List.not_mem_nil _)
        · simp only [union_loop]
          rw [hm]
          simp
        · refine List.pairwise_cons.2 ⟨?_, hs⟩
          intro p hp
          rcases (hmem p).1 hp with h | h
          · exact hx.1 p h
          · exact absurd h (List.not_mem_nil _)
        · intro p
          simp [hmem]
      · exact absurd hc.2.1 (List.not_mem_nil _)
    | x :: as, y :: bs =>
      have hx := List.pairwise_cons.1 ha
      have hy := List.pairwise_cons.1 hb
      simp only [List.length_cons] at hf
      by_cases hxy : x.1 = y.1
      · by_cases hty : x.2 = y.2
        · have hxe : x = y := Prod.ext hxy hty
          subst hxe
          have hconf := conflict_at_cons_both (not_mem_names_of_lt hx.1) (not_mem_names_of_lt hy.1)
          simp only [hconf]
          have hloop : union_loop (fuel + 1) (x :: as) (x :: bs) acc
              = union_loop fuel as bs (acc ++ [x]) := by
            simp [union_loop]
          rw [hloop]
          rcases ih as bs (acc ++ [x]) (by omega) hx.2 hy.2 with ⟨hc, m, hm, hs, hmem⟩ | h
          · left
            refine ⟨hc, x :: m, ?_, ?_, ?_⟩
            · rw [hm]
              simp
            · refine List.pairwise_cons.2 ⟨?_, hs⟩
              intro p hp
              rcases (hmem p).1 hp with h | h
              · exact hx.1 p h
              · exact hy.1 p h
            · intro p
              simp only [List.mem_cons, hmem]
              tauto
          · right
            exact h
        · right
          refine ⟨x.1, x.2, y.2, ⟨List.mem_cons_self _ _, ?_, hty⟩, ?_, ?_⟩
          · rw [hxy]
            exact List.mem_cons_self _ _
          · intro n2 ta2 tb2 h
            rcases List.mem_cons.1 h.1 with h1 | h1
            · rw [← h1]
            · exact (hx.1 _ h1).le
          · simp [union_loop, hxy, hty]
      · rcases lt_or_gt_of_ne hxy with hlt | hgt
        · have hxb : x.1 ∉ names (y :: bs) := by
            apply not_mem_names_of_lt
            intro p hp
            rcases List.mem_cons.1 hp with h | h
            · rw [h]
              exact hlt
            · exact hlt.trans (hy.1 p h)
          simp only [conflict_at_cons_left hxb]
          have hloop : union_loop (fuel + 1) (x :: as) (y :: bs) acc
              = union_loop fuel as (y :: bs) (acc ++ [x]) := by
            simp [union_loop, hxy, string_lt_iff, hlt]
          rw [hloop]
          rcases ih as (y :: bs) (acc ++ [x]) (by simp only [List.length_cons]; omega) hx.2 hb
            with ⟨hc, m, hm, hs, hmem⟩ | h
          · left
            refine ⟨hc, x :: m, ?_, ?_, ?_⟩
            · rw [hm]
              simp
            · refine List.pairwise_cons.2 ⟨?_, hs⟩
              intro p hp
              rcases (hmem p).1 hp with h | h
              · exact hx.1 p h
              · rcases List.mem_cons.1 h with h | h
                · rw [h]
                  exact hlt
                · exact hlt.trans (hy.1 p h)
            · intro p
              simp only [List.mem_cons, hmem]
              tauto
          · right
            exact h
        · have hya : y.1 ∉ names (x :: as) := by
            apply not_mem_names_of_lt
            intro p hp
            rcases List.mem_cons.1 hp with h | h
            · rw [h]
              exact hgt
            · exact lt_trans hgt (hx.1 p h)
          simp only [conflict_at_cons_right hya]
          have hloop : union_loop (fuel + 1) (x :: as) (y :: bs) acc
              = union_loop fuel (x :: as) bs (acc ++ [y]) := by
            simp [union_loop, hxy, string_lt_iff, not_lt_of_gt hgt]
          rw [hloop]
          rcases ih (x :: as) bs (acc ++ [y]) (by simp only [List.length_cons]; omega) ha hy.2
            with ⟨hc, m, hm, hs, hmem⟩ | h
          · left
            refine ⟨hc, y :: m, ?_, ?_, ?_⟩
            · rw [hm]
              simp
            · refine List.pairwise_cons.2 ⟨?_, hs⟩
              intro p hp
              rcases (hmem p).1 hp with h | h
              · rcases List.mem_cons.1 h with h | h
                · rw [h]
                  exact hgt
                · exact lt_trans hgt (hx.1 p h)
              · exact hy.1 p h
            · intro p
              simp only [List.mem_cons, hmem]
              tauto
          · right
            exact h

theorem ty_to_string_ok (t : type_t) : ∃ s, ty_to_string t = .ok s := by
  obtain ⟨c⟩ := t
  cases c <;> exact ⟨_, rfl⟩

theorem union_mismatch_error (n : String) (ta tb : type_t) :
    ∃ sa sb, ty_to_string ta = .ok sa ∧ ty_to_string tb = .ok sb ∧
      ∀ α : Type, (union_mismatch n ta tb : Except exception α) = .error (.invalid_argument
        ("Types for column '" ++ n ++ "' do not match: " ++ sa ++ " and " ++ sb)) := by
  obtain ⟨sa, hsa⟩ := ty_to_string_ok ta
  obtain ⟨sb, hsb⟩ := ty_to_string_ok tb
  refine ⟨sa, sb, hsa, hsb, ?_⟩
  intro α
  unfold union_mismatch
  rw [hsa, hsb]
  rfl

theorem intersect_mismatch_error (n : String) (ta tb : type_t) :
    ∃ sa sb, ty_to_string ta = .ok sa ∧ ty_to_string tb = .ok sb ∧
      ∀ α : Type, (intersect_mismatch n ta tb : Except exception α) = .error (.invalid_argument
        ("Types for column '" ++ c_str n ++ "' do not match: " ++ sa ++ " and " ++ sb)) := by
  obtain ⟨sa, hsa⟩ := ty_to_string_ok ta
  obtain ⟨sb, hsb⟩ := ty_to_string_ok tb
  refine ⟨sa, sb, hsa, hsb, ?_⟩
  intro α
  unfold intersect_mismatch
  rw [hsa, hsb]
  rfl

/-- Two name-sorted column lists with the same columns are the same list. -/
theorem strictly_name_sorted_ext {l1 l2 : col_tys_t} (h1 : strictly_name_sorted l1)
    (h2 : strictly_name_sorted l2) (h : ∀ p, p ∈ l1 ↔ p ∈ l2) : l1 = l2 := by
  have n1 : l1.Nodup := List.Nodup.of_map Prod.fst (strictly_name_sorted_nodup h1)
  have n2 : l2.Nodup := List.Nodup.of_map Prod.fst (strictly_name_sorted_nodup h2)
  have hp : l1.Perm l2 := (List.perm_ext_iff_of_nodup n1 n2).2 h
  exact List.eq_of_perm_of_sorted hp (strictly_name_sorted_sorted h1)
    (strictly_name_sorted_sorted h2)

/-- In a name-sorted list a name has one type only. -/
theorem strictly_name_sorted_unique {l : col_tys_t} (h : strictly_name_sorted l)
    {n : String} {t1 t2 : type_t} (h1 : (n, t1) ∈ l) (h2 : (n, t2) ∈ l) : t1 = t2 := by
  have hn := strictly_name_sorted_nodup h
  unfold names at hn
  have := List.inj_on_of_nodup_map hn h1 h2 rfl
  simp only [Prod.mk.injEq, true_and] at this
  exact this

/-- What `union_` does on two constructed relation types: either no name has two types and
the result holds the merged list, or the call throws the mismatch of the smallest name that
has two types. -/
theorem union__spec (a b : rel_ty_t) (ha : a.constructed) (hb : b.constructed) :
    (¬ type_conflict a.m_tys b.m_tys ∧
      ∃ m, union_loop (a.m_tys.length + b.m_tys.length) a.m_tys b.m_tys [] = .ok m ∧
        rel_ty_t.ctor m = .ok ⟨m⟩ ∧ rel_ty_t.union_ a b = .ok ⟨m⟩ ∧ strictly_name_sorted m ∧
        ∀ p, p ∈ m ↔ p ∈ a.m_tys ∨ p ∈ b.m_tys)
    ∨ (∃ n ta tb, conflict_at a.m_tys b.m_tys n ta tb ∧
        (∀ n2 ta2 tb2, conflict_at a.m_tys b.m_tys n2 ta2 tb2 → n ≤ n2) ∧
        rel_ty_t.union_ a b = union_mismatch n ta tb) := by
  have ha2 := (strictly_name_sorted_iff _).1 ((constructed_iff a).1 ha)
  have hb2 := (strictly_name_sorted_iff _).1 ((constructed_iff b).1 hb)
  rcases union_loop_spec _ a.m_tys b.m_tys [] (le_refl _) ha2 hb2 with
    ⟨hc, m, hm, hs, hmem⟩ | ⟨n, ta, tb, hc, hmin, hm⟩
  · left
    rw [List.nil_append] at hm
    have hs2 : strictly_name_sorted m := (strictly_name_sorted_iff m).2 hs
    refine ⟨?_, m, hm, ctor_of_strictly_sorted hs2, ?_, hs2, hmem⟩
    · rintro ⟨n, ta, tb, h⟩
      exact hc n ta tb h
    · unfold rel_ty_t.union_
      rw [hm]
      exact ctor_of_strictly_sorted hs2
  · right
    refine ⟨n, ta, tb, hc, hmin, ?_⟩
    obtain ⟨sa, sb, _, _, he⟩ := union_mismatch_error n ta tb
    unfold rel_ty_t.union_
    rw [hm, he, he]

/-! ## The scan of `intersect` -/

theorem std_map_find_foldl (l m : col_tys_t) (k : String) :
    std_map_find (l.foldl (fun m kv => if m.any (fun e => e.1 == kv.1) then m else m ++ [kv]) m) k
      = (m ++ l).find? (fun e => e.1 == k) := by
  induction l generalizing m with
  | nil => simp [std_map_find]
  | cons x t ih =>
    rw [List.foldl_cons, ih]
    by_cases hany : m.any (fun e => e.1 == x.1) = true
    · simp only [hany, if_true]
      rw [List.find?_append, List.find?_append]
      cases hm : m.find? (fun e => e.1 == k) with
      | some y => rfl
      | none =>
        have hxk : (x.1 == k) = false := by
          rw [List.find?_eq_none] at hm
          obtain ⟨e, he, hex⟩ := List.any_eq_true.1 hany
          have h1 := hm e he
          simp only [beq_iff_eq] at h1 hex
          simp only [beq_eq_false_iff_ne, ne_eq]
          intro h
          exact h1 (hex.trans h)
        simp [List.find?_cons, hxk]
    · simp only [hany]
      simp

theorem std_map_find_range (b : col_tys_t) (k : String) :
    std_map_find (std_map_range b) k = b.find? (fun e => e.1 == k) := by
  unfold std_map_range
  rw [std_map_find_foldl]
  simp

theorem intersect_loop_spec (b : col_tys_t) (hb : strictly_name_sorted b) :
    ∀ (a res : col_tys_t), a.Pairwise (fun p q => p.1 < q.1) →
    ((∀ n ta tb, ¬ conflict_at a b n ta tb) ∧
      intersect_loop (std_map_range b) a res
        = .ok (res ++ a.filter (fun x => decide (x.1 ∈ names b))))
    ∨ (∃ n ta tb, conflict_at a b n ta tb ∧
        (∀ n2 ta2 tb2, conflict_at a b n2 ta2 tb2 → n ≤ n2) ∧
        intersect_loop (std_map_range b) a res = intersect_mismatch n ta tb) := by
  intro a
  induction a with
  | nil =>
    intro res _
    left
    refine ⟨?_, by simp [intersect_loop]⟩
    intro n ta tb h
    exact absurd h.1 (List.not_mem_nil _)
  | cons x as ih =>
    intro res ha
    have hx := List.pairwise_cons.1 ha
    unfold intersect_loop
    rw [std_map_find_range]
    cases hf : b.find? (fun e => e.1 == x.1) with
    | none =>
      have hxb : x.1 ∉ names b := by
        rw [List.find?_eq_none] at hf
        intro hmem
        obtain ⟨p, hp, hpx⟩ := List.mem_map.1 hmem
        exact hf p hp (by simp [hpx])
      simp only [conflict_at_cons_left hxb]
      have hfil : (x :: as).filter (fun x => decide (x.1 ∈ names b))
          = as.filter (fun x => decide (x.1 ∈ names b)) := by
        simp [List.filter_cons, hxb]
      rw [hfil]
      exact ih res hx.2
    | some y =>
      have hy : y ∈ b := List.mem_of_find?_eq_some hf
      have hyx : y.1 = x.1 := by
        have := List.find?_some hf
        simpa using this
      by_cases hty : x.2 = y.2
      · have hxe : x = y := Prod.ext hyx.symm hty
        subst hxe
        have hconf : ∀ n ta tb, conflict_at (x :: as) b n ta tb ↔ conflict_at as b n ta tb := by
          intro n ta tb
          unfold conflict_at
          constructor
          · rintro ⟨h1, h2, h3⟩
            rcases List.mem_cons.1 h1 with k1 | k1
            · rw [← k1] at hy
              exact absurd (strictly_name_sorted_unique hb hy h2) h3
            · exact ⟨k1, h2, h3⟩
          · rintro ⟨h1, h2, h3⟩
            exact ⟨List.mem_cons_of_mem _ h1, h2, h3⟩
        simp only [hconf]
        have hxb : x.1 ∈ names b := List.mem_map.2 ⟨x, hy, rfl⟩
        have hfil : (x :: as).filter (fun x => decide (x.1 ∈ names b))
            = x :: as.filter (fun x => decide (x.1 ∈ names b)) := by
          simp [List.filter_cons, hxb]
        rw [hfil]
        simp only [ne_eq, not_true_eq_false, if_false]
        rcases ih (res ++ [x]) hx.2 with ⟨hc, hl⟩ | h
        · left
          refine ⟨hc, ?_⟩
          rw [hl]
          simp
        · right
          exact h
      · right
        refine ⟨x.1, x.2, y.2, ⟨List.mem_cons_self _ _, ?_, hty⟩, ?_, ?_⟩
        · rw [← hyx]
          exact hy
        · intro n2 ta2 tb2 h
          rcases List.mem_cons.1 h.1 with h1 | h1
          · rw [← h1]
          · exact (hx.1 _ h1).le
        · simp [hty]

/-- What `intersect` does on two constructed relation types: either no name has two types and
the result holds the columns of `a` whose name is in `b`, or the call throws the mismatch of
the smallest name that has two types. -/
theorem intersect_spec (a b : rel_ty_t) (ha : a.constructed) (hb : b.constructed) :
    (¬ type_conflict a.m_tys b.m_tys ∧
      intersect_loop (std_map_range b.m_tys) a.m_tys []
        = .ok (a.m_tys.filter (fun x => decide (x.1 ∈ names b.m_tys))) ∧
      rel_ty_t.ctor (a.m_tys.filter (fun x => decide (x.1 ∈ names b.m_tys)))
        = .ok ⟨a.m_tys.filter (fun x => decide (x.1 ∈ names b.m_tys))⟩ ∧
      rel_ty_t.intersect a b = .ok ⟨a.m_tys.filter (fun x => decide (x.1 ∈ names b.m_tys))⟩)
    ∨ (∃ n ta tb, conflict_at a.m_tys b.m_tys n ta tb ∧
        (∀ n2 ta2 tb2, conflict_at a.m_tys b.m_tys n2 ta2 tb2 → n ≤ n2) ∧
        rel_ty_t.intersect a b = intersect_mismatch n ta tb) := by
  have ha1 := (constructed_iff a).1 ha
  have ha2 := (strictly_name_sorted_iff _).1 ha1
  have hb1 := (constructed_iff b).1 hb
  rcases intersect_loop_spec b.m_tys hb1 a.m_tys [] ha2 with ⟨hc, hl⟩ | ⟨n, ta, tb, hc, hmin, hm⟩
  · left
    rw [List.nil_append] at hl
    have hs : strictly_name_sorted (a.m_tys.filter (fun x => decide (x.1 ∈ names b.m_tys))) :=
      List.Pairwise.sublist (List.filter_sublist _) ha1
    refine ⟨?_, hl, ctor_of_strictly_sorted hs, ?_⟩
    · rintro ⟨n, ta, tb, h⟩
      exact hc n ta tb h
    · unfold rel_ty_t.intersect
      rw [hl]
      exact ctor_of_strictly_sorted hs
  · right
    refine ⟨n, ta, tb, hc, hmin, ?_⟩
    obtain ⟨sa, sb, _, _, he⟩ := intersect_mismatch_error n ta tb
    unfold rel_ty_t.intersect
    rw [hm, he, he]

/-! ## Consequences used by several properties -/

theorem type_conflict_symm (a b : col_tys_t) : type_conflict a b ↔ type_conflict b a := by
  unfold type_conflict conflict_at
  constructor
  · rintro ⟨n, ta, tb, h1, h2, h3⟩
    exact ⟨n, tb, ta, h2, h1, fun h => h3 h.symm⟩
  · rintro ⟨n, ta, tb, h1, h2, h3⟩
    exact ⟨n, tb, ta, h2, h1, fun h => h3 h.symm⟩

theorem union_mismatch_ne_ok (n : String) (ta tb : type_t) (r : rel_ty_t) :
    (union_mismatch n ta tb : Except exception rel_ty_t) ≠ .ok r := by
  obtain ⟨sa, sb, _, _, he⟩ := union_mismatch_error n ta tb
  rw [he]
  intro h
  cases h

theorem intersect_mismatch_ne_ok (n : String) (ta tb : type_t) (r : rel_ty_t) :
    (intersect_mismatch n ta tb : Except exception rel_ty_t) ≠ .ok r := by
  obtain ⟨sa, sb, _, _, he⟩ := intersect_mismatch_error n ta tb
  rw [he]
  intro h
  cases h

theorem union__error_iff (a b : rel_ty_t) (ha : a.constructed) (hb : b.constructed) :
    (∃ e, rel_ty_t.union_ a b = .error e) ↔ type_conflict a.m_tys b.m_tys := by
  rcases union__spec a b ha hb with ⟨hc, m, _, _, hu, _, _⟩ | ⟨n, ta, tb, hc, _, hu⟩
  · constructor
    · rintro ⟨e, he⟩
      rw [hu] at he
      cases he
    · intro h
      exact absurd h hc
  · constructor
    · intro _
      exact ⟨n, ta, tb, hc⟩
    · intro _
      obtain ⟨sa, sb, _, _, he⟩ := union_mismatch_error n ta tb
      rw [hu, he]
      exact ⟨_, rfl⟩

theorem union__ok (a b : rel_ty_t) (ha : a.constructed) (hb : b.constructed)
    (hc : ¬ type_conflict a.m_tys b.m_tys) :
    ∃ m, rel_ty_t.union_ a b = .ok ⟨m⟩ ∧ strictly_name_sorted m ∧
      ∀ p, p ∈ m ↔ p ∈ a.m_tys ∨ p ∈ b.m_tys := by
  rcases union__spec a b ha hb with ⟨_, m, _, _, hu, hs, hmem⟩ | ⟨n, ta, tb, hc2, _, _⟩
  · exact ⟨m, hu, hs, hmem⟩
  · exact absurd ⟨n, ta, tb, hc2⟩ hc

theorem union__ok_inv (a b r : rel_ty_t) (ha : a.constructed) (hb : b.constructed)
    (h : rel_ty_t.union_ a b = .ok r) :
    ¬ type_conflict a.m_tys b.m_tys ∧ strictly_name_sorted r.m_tys ∧
      ∀ p, p ∈ r.m_tys ↔ p ∈ a.m_tys ∨ p ∈ b.m_tys := by
  rcases union__spec a b ha hb with ⟨hc, m, _, _, hu, hs, hmem⟩ | ⟨n, ta, tb, _, _, hu⟩
  · rw [hu] at h
    cases h
    exact ⟨hc, hs, hmem⟩
  · rw [hu] at h
    exact absurd h (union_mismatch_ne_ok n ta tb r)

theorem intersect_error_iff (a b : rel_ty_t) (ha : a.constructed) (hb : b.constructed) :
    (∃ e, rel_ty_t.intersect a b = .error e) ↔ type_conflict a.m_tys b.m_tys := by
  rcases intersect_spec a b ha hb with ⟨hc, _, _, hu⟩ | ⟨n, ta, tb, hc, _, hu⟩
  · constructor
    · rintro ⟨e, he⟩
      rw [hu] at he
      cases he
    · intro h
      exact absurd h hc
  · constructor
    · intro _
      exact ⟨n, ta, tb, hc⟩
    · intro _
      obtain ⟨sa, sb, _, _, he⟩ := intersect_mismatch_error n ta tb
      rw [hu, he]
      exact ⟨_, rfl⟩

theorem intersect_ok (a b : rel_ty_t) (ha : a.constructed) (hb : b.constructed)
    (hc : ¬ type_conflict a.m_tys b.m_tys) :
    rel_ty_t.intersect a b = .ok ⟨a.m_tys.filter (fun x => decide (x.1 ∈ names b.m_tys))⟩ := by
  rcases intersect_spec a b ha hb with ⟨_, _, _, hu⟩ | ⟨n, ta, tb, hc2, _, _⟩
  · exact hu
  · exact absurd ⟨n, ta, tb, hc2⟩ hc

theorem mem_filter_names_iff (a b : col_tys_t) (hc : ¬ type_conflict a b)
    (p : String × type_t) :
    p ∈ a.filter (fun x => decide (x.1 ∈ names b)) ↔ p ∈ a ∧ p ∈ b := by
  rw [List.mem_filter]
  simp only [decide_eq_true_eq]
  constructor
  · rintro ⟨hpa, hpb⟩
    refine ⟨hpa, ?_⟩
    obtain ⟨q, hq, hqp⟩ := List.mem_map.1 hpb
    by_cases hty : p.2 = q.2
    · have : p = q := Prod.ext hqp.symm hty
      rw [this]
      exact hq
    · exfalso
      apply hc
      refine ⟨p.1, p.2, q.2, hpa, ?_, hty⟩
      rw [← hqp]
      exact hq
  · rintro ⟨hpa, hpb⟩
    exact ⟨hpa, List.mem_map.2 ⟨p, hpb, rfl⟩⟩

theorem no_conflict_self (a : rel_ty_t) (ha : a.constructed) :
    ¬ type_conflict a.m_tys a.m_tys := by
  rintro ⟨n, ta, tb, h1, h2, h3⟩
  exact h3 (strictly_name_sorted_unique ((constructed_iff a).1 ha) h1 h2)

theorem no_conflict_of_subset (a b : rel_ty_t) (hb : b.constructed)
    (hsub : ∀ p, p ∈ a.m_tys → p ∈ b.m_tys) : ¬ type_conflict a.m_tys b.m_tys := by
  rintro ⟨n, ta, tb, h1, h2, h3⟩
  exact h3 (strictly_name_sorted_unique ((constructed_iff b).1 hb) (hsub _ h1) h2)

theorem union__of_subset (a b : rel_ty_t) (ha : a.constructed) (hb : b.constructed)
    (hsub : ∀ p, p ∈ a.m_tys → p ∈ b.m_tys) :
    rel_ty_t.union_ a b = .ok b ∧ rel_ty_t.union_ b a = .ok b := by
  have hc := no_conflict_of_subset a b hb hsub
  have hc2 := (type_conflict_symm b.m_tys a.m_tys).not.2 hc
  have hbs := (constructed_iff b).1 hb
  obtain ⟨m, hu, hs, hmem⟩ := union__ok a b ha hb hc
  obtain ⟨m2, hu2, hs2, hmem2⟩ := union__ok b a hb ha hc2
  have e1 : m = b.m_tys := by
    apply strictly_name_sorted_ext hs hbs
    intro p
    rw [hmem]
    constructor
    · rintro (h | h)
      · exact hsub p h
      · exact h
    · intro h
      exact Or.inr h
  have e2 : m2 = b.m_tys := by
    apply strictly_name_sorted_ext hs2 hbs
    intro p
    rw [hmem2]
    constructor
    · rintro (h | h)
      · exact h
      · exact hsub p h
    · intro h
      exact Or.inl h
  rw [hu, hu2, e1, e2]
  exact ⟨rfl, rfl⟩

theorem constructed_nil : (⟨[]⟩ : rel_ty_t).constructed := ⟨[], rfl⟩

theorem rel_ty_a_constructed : rel_ty_a.constructed := ⟨[("A", ⟨.Int⟩)], rfl⟩

theorem rel_ty_b_constructed : rel_ty_b.constructed := ⟨[("B", ⟨.Int⟩)], rfl⟩

theorem rel_ty_a__constructed : rel_ty_a_.constructed := ⟨[("A", ⟨.Double⟩)], rfl⟩

theorem rel_ty_ab_constructed : rel_ty_ab.constructed := ⟨col_tys_ba, rfl⟩

theorem rel_ty_a_a__conflict : type_conflict rel_ty_a.m_tys rel_ty_a_.m_tys :=
  ⟨"A", ⟨.Int⟩, ⟨.Double⟩, by decide, by decide, by decide⟩

theorem rel_ty_a_b_no_conflict : ¬ type_conflict rel_ty_a.m_tys rel_ty_b.m_tys := by
  rintro ⟨n, ta, tb, h1, h2, _⟩
  simp only [rel_ty_a, rel_ty_b, List.mem_singleton, Prod.mk.injEq] at h1 h2
  have h : ("A" : String) = "B" := h1.1.symm.trans h2.1
  exact absurd h (by decide)

theorem rel_ty_ab_b_no_conflict : ¬ type_conflict rel_ty_ab.m_tys rel_ty_b.m_tys :=
  (type_conflict_symm _ _).not.2
    (no_conflict_of_subset rel_ty_b rel_ty_ab rel_ty_ab_constructed (by decide))

/-! ## Construction: duplicate names, order independence, canonical form -/

/-- C1: constructing a relation type from a column type list fails, with an invalid-argument
error, exactly when some column name occurs in two or more entries of the list (only the names
count, not the types nor the positions); otherwise it succeeds. The empty list and every
single-entry list construct successfully. -/
theorem ctor_fails_iff_name_repeated :
    (∀ l : col_tys_t,
      ((∃ msg, rel_ty_t.ctor l = .error (.invalid_argument msg)) ↔ ∃ n, 2 ≤ (names l).count n) ∧
      ((∃ a, rel_ty_t.ctor l = .ok a) ↔ ¬ ∃ n, 2 ≤ (names l).count n)) ∧
    rel_ty_t.ctor [] = .ok ⟨[]⟩ ∧
    ∀ x : String × type_t, rel_ty_t.ctor [x] = .ok ⟨[x]⟩ := by
  refine ⟨?_, rfl, ?_⟩
  · intro l
    rw [← nodup_iff_no_repeat, not_not]
    constructor
    · rw [← ctor_error_iff]
      constructor
      · rintro ⟨msg, h⟩
        exact ⟨_, h⟩
      · rintro ⟨e, h⟩
        obtain ⟨msg, rfl⟩ := ctor_error_kind l e h
        exact ⟨msg, h⟩
    · constructor
      · rintro ⟨a, h⟩
        exact ((ctor_ok_iff l a).1 h).1
      · intro h
        exact ⟨⟨std_sort l⟩, (ctor_ok_iff l _).2 ⟨h, rfl⟩⟩
  · intro x
    exact ctor_of_strictly_sorted (List.pairwise_singleton _ x)

/-- C2: for two column type lists whose names are pairwise distinct, both constructions
succeed and the two relation types compare equal under `operator==` exactly when one list is a
permutation of the other, which is to say when they hold the same (name, type) pairs. -/
theorem ctor_eq_iff_perm (l1 l2 : col_tys_t) (h1 : (names l1).Nodup) (h2 : (names l2).Nodup) :
    ∃ a b, rel_ty_t.ctor l1 = .ok a ∧ rel_ty_t.ctor l2 = .ok b ∧
      (rel_ty_eq a b = true ↔ l1.Perm l2) ∧
      (l1.Perm l2 ↔ ∀ p, p ∈ l1 ↔ p ∈ l2) := by
  refine ⟨⟨std_sort l1⟩, ⟨std_sort l2⟩, (ctor_ok_iff l1 _).2 ⟨h1, rfl⟩,
    (ctor_ok_iff l2 _).2 ⟨h2, rfl⟩, ?_, ?_⟩
  · rw [rel_ty_eq_iff]
    constructor
    · intro h
      have h3 : std_sort l1 = std_sort l2 := congrArg rel_ty_t.m_tys h
      exact ((std_sort_perm l1).symm.trans (h3 ▸ List.Perm.refl _)).trans (std_sort_perm l2)
    · intro h
      have h3 : std_sort l1 = std_sort l2 :=
        std_sort_unique l2 (std_sort l1) ((std_sort_perm l1).trans h) (std_sort_sorted l1)
      rw [h3]
  · exact List.perm_ext_iff_of_nodup (List.Nodup.of_map Prod.fst h1)
      (List.Nodup.of_map Prod.fst h2)

theorem ctor_eq_iff_perm_witness :
    (names col_tys_ab).Nodup ∧ (names col_tys_ba).Nodup ∧
    ∃ a b, rel_ty_t.ctor col_tys_ab = .ok a ∧ rel_ty_t.ctor col_tys_ba = .ok b ∧
      (rel_ty_eq a b = true ↔ col_tys_ab.Perm col_tys_ba) ∧
      (col_tys_ab.Perm col_tys_ba ↔ ∀ p, p ∈ col_tys_ab ↔ p ∈ col_tys_ba) :=
  ⟨by decide, by decide, ctor_eq_iff_perm col_tys_ab col_tys_ba (by decide) (by decide)⟩

/-- C3: every relation type returned by a successful construction, by `union_` or by
`intersect` stores its columns in strictly increasing order of column name; the columns a
constructor stores are a permutation of its input list. -/
theorem results_strictly_name_sorted :
    (∀ (l : col_tys_t) (a : rel_ty_t), rel_ty_t.ctor l = .ok a →
      strictly_name_sorted a.m_tys ∧ a.m_tys.Perm l) ∧
    (∀ a b r : rel_ty_t, rel_ty_t.union_ a b = .ok r → strictly_name_sorted r.m_tys) ∧
    (∀ a b r : rel_ty_t, rel_ty_t.intersect a b = .ok r → strictly_name_sorted r.m_tys) := by
  refine ⟨?_, ?_, ?_⟩
  · intro l a h
    refine ⟨ctor_strictly_sorted h, ?_⟩
    obtain ⟨_, rfl⟩ := (ctor_ok_iff l a).1 h
    exact std_sort_perm l
  · intro a b r h
    unfold rel_ty_t.union_ at h
    cases hl : union_loop (a.m_tys.length + b.m_tys.length) a.m_tys b.m_tys [] with
    | error e =>
      rw [hl] at h
      cases h
    | ok m =>
      rw [hl] at h
      exact ctor_strictly_sorted h
  · intro a b r h
    unfold rel_ty_t.intersect at h
    cases hl : intersect_loop (std_map_range b.m_tys) a.m_tys [] with
    | error e =>
      rw [hl] at h
      cases h
    | ok m =>
      rw [hl] at h
      exact ctor_strictly_sorted h

theorem results_strictly_name_sorted_witness :
    (rel_ty_t.ctor col_tys_ba = .ok rel_ty_ab ∧
      strictly_name_sorted rel_ty_ab.m_tys ∧ rel_ty_ab.m_tys.Perm col_tys_ba) ∧
    (rel_ty_t.union_ rel_ty_b rel_ty_a = .ok rel_ty_ab ∧
      strictly_name_sorted rel_ty_ab.m_tys) ∧
    (rel_ty_t.intersect rel_ty_ab rel_ty_b = .ok rel_ty_b ∧
      strictly_name_sorted rel_ty_b.m_tys) :=
  ⟨⟨rfl, results_strictly_name_sorted.1 col_tys_ba rel_ty_ab rfl⟩,
    ⟨rfl, results_strictly_name_sorted.2.1 rel_ty_b rel_ty_a rel_ty_ab rfl⟩,
    ⟨rfl, results_strictly_name_sorted.2.2 rel_ty_ab rel_ty_b rel_ty_b rfl⟩⟩

/-! ## `union_` -/

/-- C4: for relation types `a` and `b`, `union_(a, b)` fails exactly when some column name
occurs in both with different types. Every failure is the type-mismatch error of such a name;
whenever the merge loop completes, the final construction succeeds on the merged list (no
duplicate-name error); and a call that returns a relation type had no conflicting name. -/
theorem union__fails_iff_type_conflict (a b : rel_ty_t) (ha : a.constructed)
    (hb : b.constructed) :
    ((∃ e, rel_ty_t.union_ a b = .error e) ↔ type_conflict a.m_tys b.m_tys) ∧
    (∀ e, rel_ty_t.union_ a b = .error e →
      ∃ n ta tb sa sb, conflict_at a.m_tys b.m_tys n ta tb ∧
        ty_to_string ta = .ok sa ∧ ty_to_string tb = .ok sb ∧
        e = .invalid_argument
          ("Types for column '" ++ n ++ "' do not match: " ++ sa ++ " and " ++ sb)) ∧
    (∀ col_tys, union_loop (a.m_tys.length + b.m_tys.length) a.m_tys b.m_tys [] = .ok col_tys →
      rel_ty_t.ctor col_tys = .ok ⟨col_tys⟩) ∧
    (∀ r, rel_ty_t.union_ a b = .ok r → ¬ type_conflict a.m_tys b.m_tys) := by
  refine ⟨union__error_iff a b ha hb, ?_, ?_, ?_⟩
  · intro e he
    rcases union__spec a b ha hb with ⟨_, m, _, _, hu, _, _⟩ | ⟨n, ta, tb, hc, _, hu⟩
    · rw [hu] at he
      cases he
    · obtain ⟨sa, sb, hsa, hsb, hm⟩ := union_mismatch_error n ta tb
      rw [hu, hm] at he
      cases he
      exact ⟨n, ta, tb, sa, sb, hc, hsa, hsb, rfl⟩
  · intro col_tys hl
    have ha2 := (strictly_name_sorted_iff _).1 ((constructed_iff a).1 ha)
    have hb2 := (strictly_name_sorted_iff _).1 ((constructed_iff b).1 hb)
    rcases union_loop_spec _ a.m_tys b.m_tys [] (le_refl _) ha2 hb2 with
      ⟨_, m, hm, hs, _⟩ | ⟨n, ta, tb, _, _, hm⟩
    · rw [hm] at hl
      cases hl
      rw [List.nil_append]
      exact ctor_of_strictly_sorted ((strictly_name_sorted_iff m).2 hs)
    · obtain ⟨sa, sb, _, _, he⟩ := union_mismatch_error n ta tb
      rw [hm, he] at hl
      cases hl
  · intro r hr
    exact (union__ok_inv a b r ha hb hr).1

theorem union__fails_iff_type_conflict_witness :
    rel_ty_a.constructed ∧ rel_ty_a_.constructed ∧
    rel_ty_t.union_ rel_ty_a rel_ty_a_
      = .error (.invalid_argument "Types for column 'A' do not match: Int and Double") ∧
    ((∃ e, rel_ty_t.union_ rel_ty_a rel_ty_a_ = .error e) ↔
      type_conflict rel_ty_a.m_tys rel_ty_a_.m_tys) :=
  ⟨rel_ty_a_constructed, rel_ty_a__constructed, rfl,
    (union__fails_iff_type_conflict rel_ty_a rel_ty_a_ rel_ty_a_constructed
      rel_ty_a__constructed).1⟩

/-- C5: for relation types `a` and `b` that share no column name with differing types,
`union_(a, b)` succeeds, a (name, type) pair is a column of the result exactly when it is a
column of `a` or of `b`, and every name of `a` or `b` occurs exactly once in the result. When
every column of `a` is also a column of `b`, `union_(a, b)` and `union_(b, a)` both return `b`
and compare equal to each other and to `b`. -/
theorem union__columns (a b : rel_ty_t) (ha : a.constructed) (hb : b.constructed) :
    (¬ type_conflict a.m_tys b.m_tys →
      ∃ r, rel_ty_t.union_ a b = .ok r ∧
        (∀ p, p ∈ r.m_tys ↔ p ∈ a.m_tys ∨ p ∈ b.m_tys) ∧
        ∀ n, n ∈ names a.m_tys ∨ n ∈ names b.m_tys → (names r.m_tys).count n = 1) ∧
    ((∀ p, p ∈ a.m_tys → p ∈ b.m_tys) →
      ∃ r s, rel_ty_t.union_ a b = .ok r ∧ rel_ty_t.union_ b a = .ok s ∧
        rel_ty_eq r s = true ∧ rel_ty_eq s b = true ∧ r = b) := by
  constructor
  · intro hc
    obtain ⟨m, hu, hs, hmem⟩ := union__ok a b ha hb hc
    refine ⟨⟨m⟩, hu, hmem, ?_⟩
    intro n hn
    apply List.count_eq_one_of_mem (strictly_name_sorted_nodup hs)
    unfold names at hn ⊢
    rcases hn with hn | hn
    · obtain ⟨p, hp, hpn⟩ := List.mem_map.1 hn
      exact List.mem_map.2 ⟨p, (hmem p).2 (Or.inl hp), hpn⟩
    · obtain ⟨p, hp, hpn⟩ := List.mem_map.1 hn
      exact List.mem_map.2 ⟨p, (hmem p).2 (Or.inr hp), hpn⟩
  · intro hsub
    obtain ⟨h1, h2⟩ := union__of_subset a b ha hb hsub
    exact ⟨b, b, h1, h2, (rel_ty_eq_iff b b).2 rfl, (rel_ty_eq_iff b b).2 rfl, rfl⟩

theorem union__columns_witness :
    rel_ty_a.constructed ∧ rel_ty_ab.constructed ∧
    (∀ p, p ∈ rel_ty_a.m_tys → p ∈ rel_ty_ab.m_tys) ∧
    rel_ty_t.union_ rel_ty_a rel_ty_ab = .ok rel_ty_ab ∧
    ∃ r s, rel_ty_t.union_ rel_ty_a rel_ty_ab = .ok r ∧
      rel_ty_t.union_ rel_ty_ab rel_ty_a = .ok s ∧
      rel_ty_eq r s = true ∧ rel_ty_eq s rel_ty_ab = true ∧ r = rel_ty_ab :=
  ⟨rel_ty_a_constructed, rel_ty_ab_constructed, by decide, rfl,
    (union__columns rel_ty_a rel_ty_ab rel_ty_a_constructed rel_ty_ab_constructed).2
      (by decide)⟩

/-- C6: `union_` is commutative on relation types: `union_(a, b)` fails exactly when
`union_(b, a)` fails, and when both succeed the two results compare equal. -/
theorem union__comm (a b : rel_ty_t) (ha : a.constructed) (hb : b.constructed) :
    ((∃ e, rel_ty_t.union_ a b = .error e) ↔ (∃ e, rel_ty_t.union_ b a = .error e)) ∧
    (∀ r s, rel_ty_t.union_ a b = .ok r → rel_ty_t.union_ b a = .ok s →
      rel_ty_eq r s = true) := by
  constructor
  · rw [union__error_iff a b ha hb, union__error_iff b a hb ha]
    exact type_conflict_symm _ _
  · intro r s hr hs
    obtain ⟨_, hr1, hr2⟩ := union__ok_inv a b r ha hb hr
    obtain ⟨_, hs1, hs2⟩ := union__ok_inv b a s hb ha hs
    rw [rel_ty_eq_iff]
    have : r.m_tys = s.m_tys := by
      apply strictly_name_sorted_ext hr1 hs1
      intro p
      rw [hr2, hs2]
      exact or_comm
    cases r
    cases s
    simp only at this
    rw [this]

theorem union__comm_witness :
    rel_ty_a.constructed ∧ rel_ty_b.constructed ∧
    rel_ty_t.union_ rel_ty_a rel_ty_b = .ok rel_ty_ab ∧
    rel_ty_t.union_ rel_ty_b rel_ty_a = .ok rel_ty_ab ∧
    rel_ty_eq rel_ty_ab rel_ty_ab = true :=
  ⟨rel_ty_a_constructed, rel_ty_b_constructed, rfl, rfl,
    (union__comm rel_ty_a rel_ty_b rel_ty_a_constructed rel_ty_b_constructed).2
      rel_ty_ab rel_ty_ab rfl rfl⟩

/-- C7: `union_` is idempotent: for every relation type `a`, `union_(a, a)` succeeds and its
result compares equal to `a`. -/
theorem union__idempotent (a : rel_ty_t) (ha : a.constructed) :
    ∃ r, rel_ty_t.union_ a a = .ok r ∧ rel_ty_eq r a = true := by
  have h := (union__of_subset a a ha ha (fun _ hp => hp)).1
  exact ⟨a, h, (rel_ty_eq_iff a a).2 rfl⟩

theorem union__idempotent_witness :
    rel_ty_ab.constructed ∧
    ∃ r, rel_ty_t.union_ rel_ty_ab rel_ty_ab = .ok r ∧ rel_ty_eq r rel_ty_ab = true :=
  ⟨rel_ty_ab_constructed, union__idempotent rel_ty_ab rel_ty_ab_constructed⟩

/-- C8: the empty relation type, the one constructed from the empty list, is a two-sided
identity of `union_`: for every relation type `a`, `union_(a, empty)` and `union_(empty, a)`
both succeed and both results compare equal to `a`. -/
theorem union__empty_identity (a : rel_ty_t) (ha : a.constructed) :
    rel_ty_t.ctor [] = .ok rel_ty_empty ∧
    (∃ r, rel_ty_t.union_ a rel_ty_empty = .ok r ∧ rel_ty_eq r a = true) ∧
    (∃ r, rel_ty_t.union_ rel_ty_empty a = .ok r ∧ rel_ty_eq r a = true) := by
  have h := union__of_subset rel_ty_empty a constructed_nil ha
    (fun p hp => absurd hp (List.not_mem_nil p))
  exact ⟨rfl, ⟨a, h.2, (rel_ty_eq_iff a a).2 rfl⟩, ⟨a, h.1, (rel_ty_eq_iff a a).2 rfl⟩⟩

theorem union__empty_identity_witness :
    rel_ty_ab.constructed ∧
    rel_ty_t.ctor [] = .ok rel_ty_empty ∧
    (∃ r, rel_ty_t.union_ rel_ty_ab rel_ty_empty = .ok r ∧ rel_ty_eq r rel_ty_ab = true) ∧
    (∃ r, rel_ty_t.union_ rel_ty_empty rel_ty_ab = .ok r ∧ rel_ty_eq r rel_ty_ab = true) :=
  ⟨rel_ty_ab_constructed, union__empty_identity rel_ty_ab rel_ty_ab_constructed⟩

/-! ## `intersect` -/

/-- C9: for relation types `a` and `b`, `intersect(a, b)` fails exactly when some column name
occurs in both with different types. Every failure is an invalid-argument error raised for
such a name, and whenever the scan of `a` completes, the final construction succeeds on the
collected list (no duplicate-name error). -/
theorem intersect_fails_iff_type_conflict (a b : rel_ty_t) (ha : a.constructed)
    (hb : b.constructed) :
    ((∃ e, rel_ty_t.intersect a b = .error e) ↔ type_conflict a.m_tys b.m_tys) ∧
    (∀ e, rel_ty_t.intersect a b = .error e →
      ∃ n ta tb, conflict_at a.m_tys b.m_tys n ta tb ∧
        rel_ty_t.intersect a b = intersect_mismatch n ta tb ∧
        ∃ msg, e = .invalid_argument msg) ∧
    (∀ res, intersect_loop (std_map_range b.m_tys) a.m_tys [] = .ok res →
      rel_ty_t.ctor res = .ok ⟨res⟩) := by
  refine ⟨intersect_error_iff a b ha hb, ?_, ?_⟩
  · intro e he
    rcases intersect_spec a b ha hb with ⟨_, _, _, hu⟩ | ⟨n, ta, tb, hc, _, hu⟩
    · rw [hu] at he
      cases he
    · obtain ⟨sa, sb, _, _, hm⟩ := intersect_mismatch_error n ta tb
      refine ⟨n, ta, tb, hc, hu, ?_⟩
      rw [hu, hm] at he
      cases he
      exact ⟨_, rfl⟩
  · intro res hl
    rcases intersect_spec a b ha hb with ⟨_, hl2, hc, _⟩ | ⟨n, ta, tb, hc, _, hu⟩
    · rw [hl2] at hl
      cases hl
      exact hc
    · exfalso
      obtain ⟨sa, sb, _, _, hm⟩ := intersect_mismatch_error n ta tb
      unfold rel_ty_t.intersect at hu
      rw [hl, hm] at hu
      have h3 := ctor_error_iff res
      have h4 : (∃ e, rel_ty_t.ctor res = .error e) := ⟨_, hu⟩
      have hsub : strictly_name_sorted res := by
        have ha2 := (strictly_name_sorted_iff _).1 ((constructed_iff a).1 ha)
        rcases intersect_loop_spec b.m_tys ((constructed_iff b).1 hb) a.m_tys [] ha2 with
          ⟨_, hl3⟩ | ⟨n2, ta2, tb2, _, _, hm2⟩
        · rw [hl3] at hl
          cases hl
          rw [List.nil_append]
          exact List.Pairwise.sublist (List.filter_sublist _) ((constructed_iff a).1 ha)
        · obtain ⟨sa2, sb2, _, _, he2⟩ := intersect_mismatch_error n2 ta2 tb2
          rw [hm2, he2] at hl
          cases hl
      exact (h3.1 h4) (strictly_name_sorted_nodup hsub)

theorem intersect_fails_iff_type_conflict_witness :
    rel_ty_a.constructed ∧ rel_ty_a_.constructed ∧
    rel_ty_t.intersect rel_ty_a rel_ty_a_
      = .error (.invalid_argument "Types for column 'A' do not match: Int and Double") ∧
    ((∃ e, rel_ty_t.intersect rel_ty_a rel_ty_a_ = .error e) ↔
      type_conflict rel_ty_a.m_tys rel_ty_a_.m_tys) :=
  ⟨rel_ty_a_constructed, rel_ty_a__constructed, rfl,
    (intersect_fails_iff_type_conflict rel_ty_a rel_ty_a_ rel_ty_a_constructed
      rel_ty_a__constructed).1⟩

/-- C10: for relation types `a` and `b` that share no column name with differing types,
`intersect(a, b)` succeeds and its columns are the columns of `a` whose name also occurs in
`b`, in the order they have in `a`; a (name, type) pair is a column of the result exactly when
it is a column of both `a` and `b`. -/
theorem intersect_columns (a b : rel_ty_t) (ha : a.constructed) (hb : b.constructed)
    (hc : ¬ type_conflict a.m_tys b.m_tys) :
    ∃ r, rel_ty_t.intersect a b = .ok r ∧
      r.m_tys = a.m_tys.filter (fun x => decide (x.1 ∈ names b.m_tys)) ∧
      r.m_tys.Sublist a.m_tys ∧
      ∀ p, p ∈ r.m_tys ↔ p ∈ a.m_tys ∧ p ∈ b.m_tys :=
  ⟨_, intersect_ok a b ha hb hc, rfl, List.filter_sublist _,
    mem_filter_names_iff a.m_tys b.m_tys hc⟩

theorem intersect_columns_witness :
    rel_ty_ab.constructed ∧ rel_ty_b.constructed ∧
    ¬ type_conflict rel_ty_ab.m_tys rel_ty_b.m_tys ∧
    rel_ty_t.intersect rel_ty_ab rel_ty_b = .ok rel_ty_b ∧
    ∃ r, rel_ty_t.intersect rel_ty_ab rel_ty_b = .ok r ∧
      r.m_tys = rel_ty_ab.m_tys.filter (fun x => decide (x.1 ∈ names rel_ty_b.m_tys)) ∧
      r.m_tys.Sublist rel_ty_ab.m_tys ∧
      ∀ p, p ∈ r.m_tys ↔ p ∈ rel_ty_ab.m_tys ∧ p ∈ rel_ty_b.m_tys :=
  ⟨rel_ty_ab_constructed, rel_ty_b_constructed,
    rel_ty_ab_b_no_conflict, rfl,
    intersect_columns rel_ty_ab rel_ty_b rel_ty_ab_constructed rel_ty_b_constructed
      rel_ty_ab_b_no_conflict⟩

/-! ## Algebra of `intersect` -/

theorem intersect_ok_inv (a b r : rel_ty_t) (ha : a.constructed) (hb : b.constructed)
    (h : rel_ty_t.intersect a b = .ok r) :
    ¬ type_conflict a.m_tys b.m_tys ∧ strictly_name_sorted r.m_tys ∧
      ∀ p, p ∈ r.m_tys ↔ p ∈ a.m_tys ∧ p ∈ b.m_tys := by
  rcases intersect_spec a b ha hb with ⟨hc, _, _, hu⟩ | ⟨n, ta, tb, _, _, hu⟩
  · rw [hu] at h
    cases h
    exact ⟨hc, List.Pairwise.sublist (List.filter_sublist _) ((constructed_iff a).1 ha),
      mem_filter_names_iff _ _ hc⟩
  · rw [hu] at h
    exact absurd h (intersect_mismatch_ne_ok n ta tb r)

theorem intersect_eq_of_mem (a b r : rel_ty_t) (ha : a.constructed) (hb : b.constructed)
    (hc : ¬ type_conflict a.m_tys b.m_tys) (hr : strictly_name_sorted r.m_tys)
    (hmem : ∀ p, p ∈ r.m_tys ↔ p ∈ a.m_tys ∧ p ∈ b.m_tys) :
    rel_ty_t.intersect a b = .ok r := by
  rw [intersect_ok a b ha hb hc]
  have hf : a.m_tys.filter (fun x => decide (x.1 ∈ names b.m_tys)) = r.m_tys := by
    apply strictly_name_sorted_ext
      (List.Pairwise.sublist (List.filter_sublist _) ((constructed_iff a).1 ha)) hr
    intro p
    rw [mem_filter_names_iff _ _ hc, hmem]
  rw [hf]

theorem intersect_of_subset (sup sub : rel_ty_t) (hsup : sup.constructed)
    (hsub : sub.constructed) (h : ∀ p, p ∈ sub.m_tys → p ∈ sup.m_tys) :
    rel_ty_t.intersect sup sub = .ok sub ∧ rel_ty_t.intersect sub sup = .ok sub := by
  have hc := no_conflict_of_subset sub sup hsup h
  have hc2 := (type_conflict_symm sup.m_tys sub.m_tys).not.2 hc
  have hs := (constructed_iff sub).1 hsub
  constructor
  · apply intersect_eq_of_mem sup sub sub hsup hsub hc2 hs
    intro p
    constructor
    · intro hp
      exact ⟨h p hp, hp⟩
    · intro hp
      exact hp.2
  · apply intersect_eq_of_mem sub sup sub hsub hsup hc hs
    intro p
    constructor
    · intro hp
      exact ⟨hp, h p hp⟩
    · intro hp
      exact hp.1

theorem no_conflict_of_disjoint (a b : col_tys_t) (h : ∀ n, n ∈ names a → n ∉ names b) :
    ¬ type_conflict a b := by
  rintro ⟨n, ta, tb, h1, h2, _⟩
  exact h n (mem_names_of_mem h1) (mem_names_of_mem h2)

theorem intersect_of_disjoint (a b : rel_ty_t) (ha : a.constructed) (hb : b.constructed)
    (h : ∀ n, n ∈ names a.m_tys → n ∉ names b.m_tys) :
    rel_ty_t.intersect a b = .ok rel_ty_empty := by
  apply intersect_eq_of_mem a b rel_ty_empty ha hb (no_conflict_of_disjoint _ _ h)
    List.Pairwise.nil
  intro p
  constructor
  · intro hp
    exact absurd hp (List.not_mem_nil p)
  · rintro ⟨h1, h2⟩
    exact absurd (mem_names_of_mem h2) (h p.1 (mem_names_of_mem h1))

/-- C11: `intersect` is commutative on relation types: `intersect(a, b)` fails exactly when
`intersect(b, a)` fails, and when both succeed the two results compare equal, holding the same
columns in the same order. -/
theorem intersect_comm (a b : rel_ty_t) (ha : a.constructed) (hb : b.constructed) :
    ((∃ e, rel_ty_t.intersect a b = .error e) ↔ (∃ e, rel_ty_t.intersect b a = .error e)) ∧
    (∀ r s, rel_ty_t.intersect a b = .ok r → rel_ty_t.intersect b a = .ok s →
      rel_ty_eq r s = true ∧ r.m_tys = s.m_tys) := by
  constructor
  · rw [intersect_error_iff a b ha hb, intersect_error_iff b a hb ha]
    exact type_conflict_symm _ _
  · intro r s hr hs
    obtain ⟨_, hr1, hr2⟩ := intersect_ok_inv a b r ha hb hr
    obtain ⟨_, hs1, hs2⟩ := intersect_ok_inv b a s hb ha hs
    have h : r.m_tys = s.m_tys := by
      apply strictly_name_sorted_ext hr1 hs1
      intro p
      rw [hr2, hs2]
      exact and_comm
    refine ⟨?_, h⟩
    unfold rel_ty_eq
    simp only [decide_eq_true_eq]
    exact h

theorem intersect_comm_witness :
    rel_ty_ab.constructed ∧ rel_ty_b.constructed ∧
    rel_ty_t.intersect rel_ty_ab rel_ty_b = .ok rel_ty_b ∧
    rel_ty_t.intersect rel_ty_b rel_ty_ab = .ok rel_ty_b ∧
    rel_ty_eq rel_ty_b rel_ty_b = true ∧ rel_ty_b.m_tys = rel_ty_b.m_tys :=
  ⟨rel_ty_ab_constructed, rel_ty_b_constructed, rfl, rfl,
    (intersect_comm rel_ty_ab rel_ty_b rel_ty_ab_constructed rel_ty_b_constructed).2
      rel_ty_b rel_ty_b rfl rfl⟩

/-- C12: when every column (name, type) of `sub` is also a column of `sup`, both
`intersect(sup, sub)` and `intersect(sub, sup)` succeed and both results compare equal to
`sub`. -/
theorem intersect_subset (sup sub : rel_ty_t) (hsup : sup.constructed)
    (hsub : sub.constructed) (h : ∀ p, p ∈ sub.m_tys → p ∈ sup.m_tys) :
    (∃ r, rel_ty_t.intersect sup sub = .ok r ∧ rel_ty_eq r sub = true) ∧
    (∃ s, rel_ty_t.intersect sub sup = .ok s ∧ rel_ty_eq s sub = true) := by
  obtain ⟨h1, h2⟩ := intersect_of_subset sup sub hsup hsub h
  exact ⟨⟨sub, h1, (rel_ty_eq_iff sub sub).2 rfl⟩, ⟨sub, h2, (rel_ty_eq_iff sub sub).2 rfl⟩⟩

theorem intersect_subset_witness :
    rel_ty_ab.constructed ∧ rel_ty_a.constructed ∧
    (∀ p, p ∈ rel_ty_a.m_tys → p ∈ rel_ty_ab.m_tys) ∧
    (∃ r, rel_ty_t.intersect rel_ty_ab rel_ty_a = .ok r ∧ rel_ty_eq r rel_ty_a = true) ∧
    (∃ s, rel_ty_t.intersect rel_ty_a rel_ty_ab = .ok s ∧ rel_ty_eq s rel_ty_a = true) :=
  ⟨rel_ty_ab_constructed, rel_ty_a_constructed, by decide,
    intersect_subset rel_ty_ab rel_ty_a rel_ty_ab_constructed rel_ty_a_constructed
      (by decide)⟩

/-- C13: `intersect` is idempotent: for every relation type `a`, `intersect(a, a)` succeeds
and its result compares equal to `a`. -/
theorem intersect_idempotent (a : rel_ty_t) (ha : a.constructed) :
    ∃ r, rel_ty_t.intersect a a = .ok r ∧ rel_ty_eq r a = true :=
  ⟨a, (intersect_of_subset a a ha ha (fun _ hp => hp)).1, (rel_ty_eq_iff a a).2 rfl⟩

theorem intersect_idempotent_witness :
    rel_ty_ab.constructed ∧
    ∃ r, rel_ty_t.intersect rel_ty_ab rel_ty_ab = .ok r ∧ rel_ty_eq r rel_ty_ab = true :=
  ⟨rel_ty_ab_constructed, intersect_idempotent rel_ty_ab rel_ty_ab_constructed⟩

/-- C14: for relation types `a` and `b` with no column name in common, `intersect(a, b)`
succeeds and compares equal to the empty relation type; in particular `intersect(a, empty)`
and `intersect(empty, a)` are empty for every `a`. Hence the empty relation type is not an
identity for a non-empty `a`, and no relation type is an identity of `intersect`. -/
theorem intersect_disjoint (a b : rel_ty_t) (ha : a.constructed) (hb : b.constructed) :
    ((∀ n, n ∈ names a.m_tys → n ∉ names b.m_tys) →
      ∃ r, rel_ty_t.intersect a b = .ok r ∧ rel_ty_eq r rel_ty_empty = true) ∧
    rel_ty_t.ctor [] = .ok rel_ty_empty ∧
    (∃ r, rel_ty_t.intersect a rel_ty_empty = .ok r ∧ rel_ty_eq r rel_ty_empty = true) ∧
    (∃ r, rel_ty_t.intersect rel_ty_empty a = .ok r ∧ rel_ty_eq r rel_ty_empty = true) ∧
    (a.m_tys ≠ [] → ∀ r, rel_ty_t.intersect a rel_ty_empty = .ok r → rel_ty_eq r a = false) ∧
    ¬ ∃ e : rel_ty_t, e.constructed ∧
        ∀ x : rel_ty_t, x.constructed →
          ∃ r, rel_ty_t.intersect x e = .ok r ∧ rel_ty_eq r x = true := by
  have hae := intersect_of_disjoint a rel_ty_empty ha constructed_nil
    (fun n _ hn => absurd hn (List.not_mem_nil n))
  have hea := intersect_of_disjoint rel_ty_empty a constructed_nil ha
    (fun n hn _ => absurd hn (List.not_mem_nil n))
  refine ⟨?_, rfl, ⟨_, hae, rfl⟩, ⟨_, hea, rfl⟩, ?_, ?_⟩
  · intro h
    exact ⟨_, intersect_of_disjoint a b ha hb h, rfl⟩
  · intro hne r hr
    rw [hae] at hr
    cases hr
    cases hb2 : rel_ty_eq rel_ty_empty a with
    | false => rfl
    | true =>
      have := (rel_ty_eq_iff _ _).1 hb2
      rw [← this] at hne
      exact absurd rfl hne
  · rintro ⟨e, he, hid⟩
    obtain ⟨r1, h1, e1⟩ := hid rel_ty_a rel_ty_a_constructed
    obtain ⟨r2, h2, e2⟩ := hid rel_ty_a_ rel_ty_a__constructed
    rw [(rel_ty_eq_iff _ _).1 e1] at h1
    rw [(rel_ty_eq_iff _ _).1 e2] at h2
    have m1 := ((intersect_ok_inv _ _ _ rel_ty_a_constructed he h1).2.2 ("A", ⟨.Int⟩)).1
      (by decide)
    have m2 := ((intersect_ok_inv _ _ _ rel_ty_a__constructed he h2).2.2 ("A", ⟨.Double⟩)).1
      (by decide)
    have := strictly_name_sorted_unique ((constructed_iff e).1 he) m1.2 m2.2
    exact absurd this (by decide)

theorem intersect_disjoint_witness :
    rel_ty_a.constructed ∧ rel_ty_b.constructed ∧
    (∀ n, n ∈ names rel_ty_a.m_tys → n ∉ names rel_ty_b.m_tys) ∧
    rel_ty_t.intersect rel_ty_a rel_ty_b = .ok rel_ty_empty ∧
    ∃ r, rel_ty_t.intersect rel_ty_a rel_ty_b = .ok r ∧ rel_ty_eq r rel_ty_empty = true :=
  ⟨rel_ty_a_constructed, rel_ty_b_constructed, by decide, rfl,
    (intersect_disjoint rel_ty_a rel_ty_b rel_ty_a_constructed rel_ty_b_constructed).1
      (by decide)⟩

/-! ## Unimplemented operations -/

/-- C15: for all relation types `a`, `b` and every name range, `minus(a, b)` and
`project(a, begin, end)` fail with the not-implemented error and return no relation type;
that error is of another kind than the invalid-argument error of duplicate names and type
mismatches. -/
theorem minus_project_not_implemented :
    (∀ a b : rel_ty_t, rel_ty_t.minus a b = .error .not_implemented) ∧
    (∀ (Iterator : Type) (a : rel_ty_t) (first last : Iterator),
      rel_ty_t.project a first last = .error .not_implemented) ∧
    (∀ a b r : rel_ty_t, rel_ty_t.minus a b ≠ .ok r) ∧
    (∀ (Iterator : Type) (a r : rel_ty_t) (first last : Iterator),
      rel_ty_t.project a first last ≠ .ok r) ∧
    (∀ msg : String, exception.not_implemented ≠ exception.invalid_argument msg) := by
  refine ⟨fun _ _ => rfl, fun _ _ _ _ => rfl, ?_, ?_, ?_⟩
  · intro a b r h
    unfold rel_ty_t.minus at h
    cases h
  · intro Iterator a r first last h
    unfold rel_ty_t.project at h
    cases h
  · intro msg h
    cases h

/-! ## Display -/

theorem ty_to_string_eq_name (t : type_t) : ty_to_string t = .ok (ty_name t) := by
  obtain ⟨c⟩ := t
  cases c <;> rfl

/-- C16: `ty_to_string` returns "Void", "Bool", "Int", "Float", "Double", "String", "Date",
"Time", "Object" for the nine tags in this order, and it throws for no tag of the
enumeration. -/
theorem ty_to_string_names :
    ty_to_string ⟨.Void⟩ = .ok "Void" ∧ ty_to_string ⟨.Bool⟩ = .ok "Bool" ∧
    ty_to_string ⟨.Int⟩ = .ok "Int" ∧ ty_to_string ⟨.Float⟩ = .ok "Float" ∧
    ty_to_string ⟨.Double⟩ = .ok "Double" ∧ ty_to_string ⟨.String⟩ = .ok "String" ∧
    ty_to_string ⟨.Date⟩ = .ok "Date" ∧ ty_to_string ⟨.Time⟩ = .ok "Time" ∧
    ty_to_string ⟨.Object⟩ = .ok "Object" ∧
    (∀ (t : type_t) (e : exception), ty_to_string t ≠ .error e) ∧
    (∀ t : type_t, t.ty_con.toNat ≤ 8) := by
  refine ⟨rfl, rfl, rfl, rfl, rfl, rfl, rfl, rfl, rfl, ?_, ?_⟩
  · intro t e h
    rw [ty_to_string_eq_name] at h
    cases h
  · intro t
    obtain ⟨c⟩ := t
    cases c <;> simp [ty_con_t.toNat]

theorem col_tys_to_stream_loop_eq (rest : col_tys_t) : ∀ (pre acc : String),
    col_tys_to_stream_loop (pre ++ acc) false rest
      = .ok (pre ++ String.intercalate.go acc ", " (rest.map render_entry)) := by
  induction rest with
  | nil =>
    intro pre acc
    rfl
  | cons y rest ih =>
    intro pre acc
    have h : pre ++ acc ++ ", " ++ y.1 ++ " : " ++ ty_name y.2
        = pre ++ (acc ++ ", " ++ render_entry y) := by
      unfold render_entry
      simp only [String.append_assoc]
    simp only [col_tys_to_stream_loop, ty_to_string_eq_name, List.map_cons,
      String.intercalate.go, Bool.false_eq_true, if_false]
    rw [h]
    exact ih pre (acc ++ ", " ++ render_entry y)

/-- C17: for every column type list, `col_tys_to_string` returns an opening brace and a
blank, then the entries in input order, each shown as its name, " : " and the display name of
its type, with ", " between two entries, then a blank and a closing brace. All entries are
kept, in input order, repeated names included; the empty list gives the two braces with two
blanks between them. -/
theorem col_tys_to_string_format (l : col_tys_t) :
    col_tys_to_string l
      = .ok ("\x7b " ++ ", ".intercalate (l.map render_entry) ++ " \x7d") ∧
    (∀ x : String × type_t, ty_to_string x.2 = .ok (ty_name x.2) ∧
      render_entry x = x.1 ++ " : " ++ ty_name x.2) ∧
    col_tys_to_string [] = .ok "\x7b  \x7d" ∧
    col_tys_to_string col_tys_test = .ok
      "\x7b A : Void, B : Bool, C : Int, D : Float, E : Double, F : String, G : Date, H : Time, I : Object \x7d" ∧
    col_tys_to_string [("A", ⟨.Int⟩), ("A", ⟨.Int⟩)] = .ok "\x7b A : Int, A : Int \x7d" := by
  refine ⟨?_, fun x => ⟨ty_to_string_eq_name x.2, rfl⟩, rfl, rfl, rfl⟩
  cases l with
  | nil => rfl
  | cons x rest =>
    unfold col_tys_to_string col_tys_to_stream
    have h : "" ++ "\x7b " ++ x.1 ++ " : " ++ ty_name x.2 = "\x7b " ++ render_entry x := by
      unfold render_entry
      simp only [String.append_assoc, String.empty_append]
    simp only [col_tys_to_stream_loop, ty_to_string_eq_name, if_true, List.map_cons,
      String.intercalate]
    rw [h, col_tys_to_stream_loop_eq]

/-! ## The assembled lists and the error messages -/

theorem strictly_name_sorted_check {l : col_tys_t} (h : strictly_name_sorted l) :
    check_repeated l = .ok () :=
  (check_repeated_ok_iff l (sorted_names_le (strictly_name_sorted_sorted h))).2 h

/-- C18: for relation types `a` and `b`, when the merge loop of `union_` (likewise the scan of
`intersect`) completes without a type mismatch, the list it has assembled is strictly sorted
by name; sorting it changes nothing, the duplicate-name check passes, and the relation type
returned holds exactly the assembled list. Without a type conflict the loops do complete. -/
theorem assembled_list_is_canonical (a b : rel_ty_t) (ha : a.constructed)
    (hb : b.constructed) :
    (∀ col_tys,
      union_loop (a.m_tys.length + b.m_tys.length) a.m_tys b.m_tys [] = .ok col_tys →
      strictly_name_sorted col_tys ∧ std_sort col_tys = col_tys ∧
        check_repeated col_tys = .ok () ∧ rel_ty_t.union_ a b = .ok ⟨col_tys⟩) ∧
    (∀ res, intersect_loop (std_map_range b.m_tys) a.m_tys [] = .ok res →
      strictly_name_sorted res ∧ std_sort res = res ∧
        check_repeated res = .ok () ∧ rel_ty_t.intersect a b = .ok ⟨res⟩) ∧
    (¬ type_conflict a.m_tys b.m_tys →
      (∃ col_tys,
        union_loop (a.m_tys.length + b.m_tys.length) a.m_tys b.m_tys [] = .ok col_tys) ∧
      ∃ res, intersect_loop (std_map_range b.m_tys) a.m_tys [] = .ok res) := by
  have ha1 := (constructed_iff a).1 ha
  have ha2 := (strictly_name_sorted_iff _).1 ha1
  have hb1 := (constructed_iff b).1 hb
  have hb2 := (strictly_name_sorted_iff _).1 hb1
  refine ⟨?_, ?_, ?_⟩
  · intro col_tys hl
    rcases union_loop_spec _ a.m_tys b.m_tys [] (le_refl _) ha2 hb2 with
      ⟨_, m, hm, hs, _⟩ | ⟨n, ta, tb, _, _, hm⟩
    · have hs2 : strictly_name_sorted col_tys := by
        rw [hm] at hl
        cases hl
        rw [List.nil_append]
        exact (strictly_name_sorted_iff m).2 hs
      refine ⟨hs2, std_sort_of_sorted (strictly_name_sorted_sorted hs2),
        strictly_name_sorted_check hs2, ?_⟩
      unfold rel_ty_t.union_
      rw [hl]
      exact ctor_of_strictly_sorted hs2
    · obtain ⟨sa, sb, _, _, he⟩ := union_mismatch_error n ta tb
      rw [hm, he] at hl
      cases hl
  · intro res hl
    rcases intersect_loop_spec b.m_tys hb1 a.m_tys [] ha2 with
      ⟨_, hl3⟩ | ⟨n, ta, tb, _, _, hm⟩
    · have hs2 : strictly_name_sorted res := by
        rw [hl3] at hl
        cases hl
        rw [List.nil_append]
        exact List.Pairwise.sublist (List.filter_sublist _) ha1
      refine ⟨hs2, std_sort_of_sorted (strictly_name_sorted_sorted hs2),
        strictly_name_sorted_check hs2, ?_⟩
      unfold rel_ty_t.intersect
      rw [hl]
      exact ctor_of_strictly_sorted hs2
    · obtain ⟨sa, sb, _, _, he⟩ := intersect_mismatch_error n ta tb
      rw [hm, he] at hl
      cases hl
  · intro hc
    constructor
    · rcases union__spec a b ha hb with ⟨_, m, hm, _, _, _, _⟩ | ⟨n, ta, tb, hc2, _, _⟩
      · exact ⟨m, hm⟩
      · exact absurd ⟨n, ta, tb, hc2⟩ hc
    · rcases intersect_spec a b ha hb with ⟨_, hl2, _, _⟩ | ⟨n, ta, tb, hc2, _, _⟩
      · exact ⟨_, hl2⟩
      · exact absurd ⟨n, ta, tb, hc2⟩ hc

theorem assembled_list_is_canonical_witness :
    rel_ty_b.constructed ∧ rel_ty_ab.constructed ∧
    union_loop (rel_ty_b.m_tys.length + rel_ty_ab.m_tys.length) rel_ty_b.m_tys
      rel_ty_ab.m_tys [] = .ok rel_ty_ab.m_tys ∧
    (strictly_name_sorted rel_ty_ab.m_tys ∧ std_sort rel_ty_ab.m_tys = rel_ty_ab.m_tys ∧
      check_repeated rel_ty_ab.m_tys = .ok () ∧
      rel_ty_t.union_ rel_ty_b rel_ty_ab = .ok ⟨rel_ty_ab.m_tys⟩) :=
  ⟨rel_ty_b_constructed, rel_ty_ab_constructed, rfl,
    (assembled_list_is_canonical rel_ty_b rel_ty_ab rel_ty_b_constructed
      rel_ty_ab_constructed).1 rel_ty_ab.m_tys rfl⟩

/-- The message of a failing `union_`: it carries the whole name of the smallest column that
has two types, and the display names of the two types. -/
theorem union__mismatch_message (a b : rel_ty_t) (ha : a.constructed) (hb : b.constructed)
    (e : exception) (he : rel_ty_t.union_ a b = .error e) :
    ∃ n ta tb, conflict_at a.m_tys b.m_tys n ta tb ∧
      (∀ n2 ta2 tb2, conflict_at a.m_tys b.m_tys n2 ta2 tb2 → n ≤ n2) ∧
      e = .invalid_argument
        ("Types for column '" ++ n ++ "' do not match: " ++ ty_name ta ++ " and "
          ++ ty_name tb) := by
  rcases union__spec a b ha hb with ⟨_, m, _, _, hu, _, _⟩ | ⟨n, ta, tb, hc, hmin, hu⟩
  · rw [hu] at he
    cases he
  · refine ⟨n, ta, tb, hc, hmin, ?_⟩
    obtain ⟨sa, sb, hsa, hsb, hm⟩ := union_mismatch_error n ta tb
    rw [ty_to_string_eq_name] at hsa hsb
    cases hsa
    cases hsb
    rw [hu, hm] at he
    cases he
    rfl

/-- The message of a failing `intersect`: it is about the smallest column that has two types,
and it carries the display names of the two types, but of the name only the characters before
the first NUL. -/
theorem intersect_mismatch_message (a b : rel_ty_t) (ha : a.constructed)
    (hb : b.constructed) (e : exception) (he : rel_ty_t.intersect a b = .error e) :
    ∃ n ta tb, conflict_at a.m_tys b.m_tys n ta tb ∧
      (∀ n2 ta2 tb2, conflict_at a.m_tys b.m_tys n2 ta2 tb2 → n ≤ n2) ∧
      e = .invalid_argument
        ("Types for column '" ++ c_str n ++ "' do not match: " ++ ty_name ta ++ " and "
          ++ ty_name tb) := by
  rcases intersect_spec a b ha hb with ⟨_, _, _, hu⟩ | ⟨n, ta, tb, hc, hmin, hu⟩
  · rw [hu] at he
    cases he
  · refine ⟨n, ta, tb, hc, hmin, ?_⟩
    obtain ⟨sa, sb, hsa, hsb, hm⟩ := intersect_mismatch_error n ta tb
    rw [ty_to_string_eq_name] at hsa hsb
    cases hsa
    cases hsb
    rw [hu, hm] at he
    cases he
    rfl

theorem rel_ty_nul_constructed : rel_ty_nul.constructed := ⟨[(name_with_nul, ⟨.Int⟩)], rfl⟩

theorem rel_ty_nul__constructed : rel_ty_nul_.constructed :=
  ⟨[(name_with_nul, ⟨.Double⟩)], rfl⟩

/-- C19: at the relation types with the one column named "A", NUL, "B", of type Int in the
first and Double in the second, `intersect` throws a message that names the column 'A' only,
which is not the message with the complete name; `union_` on the same two relation types
throws the message with the complete name. -/
theorem intersect_message_truncates_name :
    rel_ty_nul.constructed ∧ rel_ty_nul_.constructed ∧
    conflict_at rel_ty_nul.m_tys rel_ty_nul_.m_tys name_with_nul ⟨.Int⟩ ⟨.Double⟩ ∧
    rel_ty_t.intersect rel_ty_nul rel_ty_nul_
      = .error (.invalid_argument "Types for column 'A' do not match: Int and Double") ∧
    rel_ty_t.intersect rel_ty_nul rel_ty_nul_
      ≠ .error (.invalid_argument
          ("Types for column '" ++ name_with_nul ++ "' do not match: Int and Double")) ∧
    rel_ty_t.union_ rel_ty_nul rel_ty_nul_
      = .error (.invalid_argument
          ("Types for column '" ++ name_with_nul ++ "' do not match: Int and Double")) := by
  refine ⟨rel_ty_nul_constructed, rel_ty_nul__constructed,
    ⟨by decide, by decide, by decide⟩, rfl, ?_, rfl⟩
  intro h
  have h1 : rel_ty_t.intersect rel_ty_nul rel_ty_nul_
      = .error (.invalid_argument "Types for column 'A' do not match: Int and Double") := rfl
  rw [h1] at h
  injection h with h2
  injection h2 with h3
  exact absurd h3 (by decide)

/-! ## Associativity of `union_` -/

theorem type_conflict_union_left (m a b c : col_tys_t)
    (hmem : ∀ p, p ∈ m ↔ p ∈ a ∨ p ∈ b) :
    type_conflict m c ↔ type_conflict a c ∨ type_conflict b c := by
  unfold type_conflict conflict_at
  constructor
  · rintro ⟨n, ta, tb, h1, h2, h3⟩
    rcases (hmem _).1 h1 with h | h
    · exact Or.inl ⟨n, ta, tb, h, h2, h3⟩
    · exact Or.inr ⟨n, ta, tb, h, h2, h3⟩
  · rintro (⟨n, ta, tb, h1, h2, h3⟩ | ⟨n, ta, tb, h1, h2, h3⟩)
    · exact ⟨n, ta, tb, (hmem _).2 (Or.inl h1), h2, h3⟩
    · exact ⟨n, ta, tb, (hmem _).2 (Or.inr h1), h2, h3⟩

/-- Two nested calls of `union_`, the inner one first: they fail exactly when two of the three
relation types give one name different types, and a result holds the columns of all three. -/
theorem union__nested_left (a b c : rel_ty_t) (ha : a.constructed) (hb : b.constructed)
    (hc : c.constructed) :
    ((∃ e, (rel_ty_t.union_ a b).bind (fun ab => rel_ty_t.union_ ab c) = .error e) ↔
      (type_conflict a.m_tys b.m_tys ∨ type_conflict a.m_tys c.m_tys ∨
        type_conflict b.m_tys c.m_tys)) ∧
    (∀ r, (rel_ty_t.union_ a b).bind (fun ab => rel_ty_t.union_ ab c) = .ok r →
      strictly_name_sorted r.m_tys ∧
        ∀ p, p ∈ r.m_tys ↔ p ∈ a.m_tys ∨ p ∈ b.m_tys ∨ p ∈ c.m_tys) := by
  by_cases hab : type_conflict a.m_tys b.m_tys
  · obtain ⟨e, he⟩ := (union__error_iff a b ha hb).2 hab
    rw [he]
    constructor
    · constructor
      · intro _
        exact Or.inl hab
      · intro _
        exact ⟨e, rfl⟩
    · intro r hr
      cases hr
  · obtain ⟨m, hu, hs, hmem⟩ := union__ok a b ha hb hab
    rw [hu]
    have hm : (⟨m⟩ : rel_ty_t).constructed := (constructed_iff _).2 hs
    have hbind : (Except.ok (⟨m⟩ : rel_ty_t) : Except exception rel_ty_t).bind
        (fun ab => rel_ty_t.union_ ab c) = rel_ty_t.union_ ⟨m⟩ c := rfl
    rw [hbind]
    constructor
    · rw [union__error_iff ⟨m⟩ c hm hc, type_conflict_union_left m _ _ _ hmem]
      constructor
      · intro h
        exact Or.inr h
      · rintro (h | h)
        · exact absurd h hab
        · exact h
    · intro r hr
      obtain ⟨_, hr1, hr2⟩ := union__ok_inv ⟨m⟩ c r hm hc hr
      refine ⟨hr1, ?_⟩
      intro p
      rw [hr2]
      simp only [hmem, or_assoc]

/-- Two nested calls of `union_`, the inner one second. -/
theorem union__nested_right (a b c : rel_ty_t) (ha : a.constructed) (hb : b.constructed)
    (hc : c.constructed) :
    ((∃ e, (rel_ty_t.union_ b c).bind (fun bc => rel_ty_t.union_ a bc) = .error e) ↔
      (type_conflict a.m_tys b.m_tys ∨ type_conflict a.m_tys c.m_tys ∨
        type_conflict b.m_tys c.m_tys)) ∧
    (∀ r, (rel_ty_t.union_ b c).bind (fun bc => rel_ty_t.union_ a bc) = .ok r →
      strictly_name_sorted r.m_tys ∧
        ∀ p, p ∈ r.m_tys ↔ p ∈ a.m_tys ∨ p ∈ b.m_tys ∨ p ∈ c.m_tys) := by
  by_cases hbc : type_conflict b.m_tys c.m_tys
  · obtain ⟨e, he⟩ := (union__error_iff b c hb hc).2 hbc
    rw [he]
    constructor
    · constructor
      · intro _
        exact Or.inr (Or.inr hbc)
      · intro _
        exact ⟨e, rfl⟩
    · intro r hr
      cases hr
  · obtain ⟨m, hu, hs, hmem⟩ := union__ok b c hb hc hbc
    rw [hu]
    have hm : (⟨m⟩ : rel_ty_t).constructed := (constructed_iff _).2 hs
    have hbind : (Except.ok (⟨m⟩ : rel_ty_t) : Except exception rel_ty_t).bind
        (fun bc => rel_ty_t.union_ a bc) = rel_ty_t.union_ a ⟨m⟩ := rfl
    rw [hbind]
    constructor
    · rw [union__error_iff a ⟨m⟩ ha hm, type_conflict_symm a.m_tys m,
        type_conflict_union_left m _ _ _ hmem, type_conflict_symm b.m_tys a.m_tys,
        type_conflict_symm c.m_tys a.m_tys]
      constructor
      · rintro (h | h)
        · exact Or.inl h
        · exact Or.inr (Or.inl h)
      · rintro (h | h | h)
        · exact Or.inl h
        · exact Or.inr h
        · exact absurd h hbc
    · intro r hr
      obtain ⟨_, hr1, hr2⟩ := union__ok_inv a ⟨m⟩ r ha hm hr
      refine ⟨hr1, ?_⟩
      intro p
      rw [hr2]
      simp only [hmem]

/-- C20: `union_` is associative on relation types, failures included:
`union_(union_(a, b), c)` fails exactly when `union_(a, union_(b, c))` fails, which is when
some two of `a`, `b`, `c` give one name different types, and when both succeed the two results
compare equal. A failing inner call makes the nested call fail. -/
theorem union__assoc (a b c : rel_ty_t) (ha : a.constructed) (hb : b.constructed)
    (hc : c.constructed) :
    ((∃ e, (rel_ty_t.union_ a b).bind (fun ab => rel_ty_t.union_ ab c) = .error e) ↔
      (∃ e, (rel_ty_t.union_ b c).bind (fun bc => rel_ty_t.union_ a bc) = .error e)) ∧
    ((∃ e, (rel_ty_t.union_ a b).bind (fun ab => rel_ty_t.union_ ab c) = .error e) ↔
      (type_conflict a.m_tys b.m_tys ∨ type_conflict a.m_tys c.m_tys ∨
        type_conflict b.m_tys c.m_tys)) ∧
    (∀ r s, (rel_ty_t.union_ a b).bind (fun ab => rel_ty_t.union_ ab c) = .ok r →
      (rel_ty_t.union_ b c).bind (fun bc => rel_ty_t.union_ a bc) = .ok s →
      rel_ty_eq r s = true) := by
  obtain ⟨l1, l2⟩ := union__nested_left a b c ha hb hc
  obtain ⟨r1, r2⟩ := union__nested_right a b c ha hb hc
  refine ⟨l1.trans r1.symm, l1, ?_⟩
  intro r s hr hs
  obtain ⟨hrs, hrm⟩ := l2 r hr
  obtain ⟨hss, hsm⟩ := r2 s hs
  unfold rel_ty_eq
  simp only [decide_eq_true_eq]
  apply strictly_name_sorted_ext hrs hss
  intro p
  rw [hrm, hsm]

theorem union__assoc_witness :
    rel_ty_a.constructed ∧ rel_ty_b.constructed ∧ rel_ty_ab.constructed ∧
    (rel_ty_t.union_ rel_ty_a rel_ty_b).bind (fun ab => rel_ty_t.union_ ab rel_ty_ab)
      = .ok rel_ty_ab ∧
    (rel_ty_t.union_ rel_ty_b rel_ty_ab).bind (fun bc => rel_ty_t.union_ rel_ty_a bc)
      = .ok rel_ty_ab ∧
    rel_ty_eq rel_ty_ab rel_ty_ab = true :=
  ⟨rel_ty_a_constructed, rel_ty_b_constructed, rel_ty_ab_constructed, rfl, rfl,
    (union__assoc rel_ty_a rel_ty_b rel_ty_ab rel_ty_a_constructed rel_ty_b_constructed
      rel_ty_ab_constructed).2.2 rel_ty_ab rel_ty_ab rfl rfl⟩

end rac
